import Mathlib

/-!
Verification of the supercall voice-call core against its specification.

The definitions below are shallow embeddings of the TypeScript sources:
  - `src/dtmf.ts`            (µ-law encoding, DTMF synthesis, stream chunking)
  - `src/webhook-security.ts` (Twilio webhook signature verification)
  - `src/manager.ts`          (call state machine, call manager operations)
  - media-stream handler      (duplicate-stream guard)

Buffers of 8-bit µ-law audio are `List Nat` (one byte per element); JS strings
are Lean `String`; JS `Map` objects are association lists in insertion order
(`mapGet` / `mapSet` / `mapDelete` mirror `Map.get` / `Map.set` /
`Map.delete`).  Machine integers do not overflow in any of the embedded code
(samples are clipped to 32767 before any bit twiddling), so `Nat` / `Int` are
exact models.
-/

/-! ## Association-list model of the JS `Map` (insertion ordered) -/

/-- `Map.get`: the value stored at key `k`, if any. -/
def mapGet {κ α : Type} [DecidableEq κ] (l : List (κ × α)) (k : κ) : Option α :=
  (l.find? (fun kv => decide (kv.1 = k))).map (fun kv => kv.2)

/-- `Map.set`: replace the entry at `k` in place if present (a JS `Map` keeps
the original insertion position), otherwise append a new entry. -/
def mapSet {κ α : Type} [DecidableEq κ] (l : List (κ × α)) (k : κ) (v : α) : List (κ × α) :=
  if l.any (fun kv => decide (kv.1 = k)) then
    l.map (fun kv => if kv.1 = k then (k, v) else kv)
  else
    l ++ [(k, v)]

/-- `Map.delete`: remove the entry at `k`. -/
def mapDelete {κ α : Type} [DecidableEq κ] (l : List (κ × α)) (k : κ) : List (κ × α) :=
  l.filter (fun kv => decide (kv.1 ≠ k))

/-- The keys of an association list, in order. -/
def mapKeys {κ α : Type} (l : List (κ × α)) : List κ := l.map (fun kv => kv.1)

/-! ## µ-law encoding (`linearToMulaw` in src/dtmf.ts) -/

/-- The `while (exponent > 0 && (sample & mask) === 0)` search of
`linearToMulaw`: starting from `exponent`, decrement (halving `mask`,
i.e. `mask >>= 1`) while the masked bit of `sample` is clear.  Structural
recursion on `exponent` is exactly the loop variable of the source. -/
def mulawExpLoop (sample : Nat) : Nat → Nat → Nat
  | 0, _ => 0
  | e + 1, mask => if sample &&& mask == 0 then mulawExpLoop sample e (mask / 2) else e + 1

/-- Embeds `linearToMulaw` (src/dtmf.ts, lines 45-66).  The input is the
rounded 16-bit linear PCM sample; JS holds it in a float but every value here
is integral, so `Int` is exact.  `~x & 0xff` at the end is the 8-bit
complement, written as xor with `0xff`. -/
def linearToMulaw (sample : Int) : Nat :=
  let sign : Nat := if sample < 0 then 0x80 else 0
  let s1 : Nat := sample.natAbs
  let s2 : Nat := if s1 > 32635 then 32635 else s1
  let s3 : Nat := s2 + 0x84
  let exponent := mulawExpLoop s3 7 0x4000
  let mantissa := (s3 >>> (exponent + 3)) &&& 0x0f
  Nat.xor ((sign ||| (exponent <<< 4)) ||| mantissa) 0xff

/-! ## DTMF synthesis (`generateDtmfAudio` in src/dtmf.ts) -/

def SAMPLE_RATE : Nat := 8000

/-- µ-law silence byte (`const SILENCE = 0xff` in `generateDtmfAudio`). -/
def SILENCE : Nat := 0xff

/-- The `DTMF_FREQUENCIES` table of src/dtmf.ts: ITU row/column pair for each
tone character (already upper-cased by the caller). -/
def DTMF_FREQUENCIES (c : Char) : Option (Nat × Nat) :=
  match c with
  | '1' => some (697, 1209)
  | '2' => some (697, 1336)
  | '3' => some (697, 1477)
  | 'A' => some (697, 1633)
  | '4' => some (770, 1209)
  | '5' => some (770, 1336)
  | '6' => some (770, 1477)
  | 'B' => some (770, 1633)
  | '7' => some (852, 1209)
  | '8' => some (852, 1336)
  | '9' => some (852, 1477)
  | 'C' => some (852, 1633)
  | '*' => some (941, 1209)
  | '0' => some (941, 1336)
  | '#' => some (941, 1477)
  | 'D' => some (941, 1633)
  | _ => none

/-- The per-character loop body of `generateDtmfAudio`, producing the `chunks`
array.  The loop index test `i < digits.length - 1` (gap after each tone
except at the last character position) is `rest ≠ []` here.

`pcm f1 f2 s` abstracts the floating-point sample
`Math.round(amplitude * sin(2π f1 s/8000) + amplitude * sin(2π f2 s/8000))`:
IEEE-754 sine is outside an exact embedding, so it is a parameter; everything
downstream of it (µ-law compression, block layout) is from the source. -/
def dtmfChunks (pcm : Nat → Nat → Nat → Int) (toneSamples gapSamples pauseSamples : Nat) :
    List Char → List (List Nat)
  | [] => []
  | c :: rest =>
    let digit := c.toUpper
    if digit = 'W' then
      List.replicate pauseSamples SILENCE ::
        dtmfChunks pcm toneSamples gapSamples pauseSamples rest
    else
      match DTMF_FREQUENCIES digit with
      | none => dtmfChunks pcm toneSamples gapSamples pauseSamples rest
      | some (f1, f2) =>
        let tone := (List.range toneSamples).map (fun s => linearToMulaw (pcm f1 f2 s))
        if rest.isEmpty then
          tone :: dtmfChunks pcm toneSamples gapSamples pauseSamples rest
        else
          tone :: List.replicate gapSamples SILENCE ::
            dtmfChunks pcm toneSamples gapSamples pauseSamples rest

/-- Embeds `generateDtmfAudio` (src/dtmf.ts, lines 76-131).  `digits` is the
character list of the input string; `toneDurationMs`/`gapMs` default to
100/80 at call sites, matching `options?.toneDurationMs ?? 100` and
`options?.gapMs ?? 80`.  `Buffer.concat(chunks)` is `List.flatten`. -/
def generateDtmfAudio (pcm : Nat → Nat → Nat → Int) (digits : List Char)
    (toneDurationMs gapMs : Nat) : List Nat :=
  let toneSamples := SAMPLE_RATE * toneDurationMs / 1000
  let gapSamples := SAMPLE_RATE * gapMs / 1000
  let pauseSamples := SAMPLE_RATE * 500 / 1000
  (dtmfChunks pcm toneSamples gapSamples pauseSamples digits).flatten

/-! ## Stream chunking (`chunkDtmfAudio` in src/dtmf.ts) -/

/-- One iteration of the `for (offset; offset < audio.length; offset += frameSize)`
loop of `chunkDtmfAudio`: the frame is `Buffer.alloc(frameSize, 0xff)` with
`audio[offset ... end)` copied over its front, i.e. the next `frameSize` bytes
padded with µ-law silence.  `fuel` bounds the number of loop iterations (with
`frameSize ≥ 1` the loop runs at most `audio.length` times, one byte consumed
per iteration at minimum). -/
def chunkLoop (frameSize : Nat) : Nat → List Nat → List (List Nat)
  | 0, _ => []
  | _ + 1, [] => []
  | fuel + 1, audio@(_ :: _) =>
    (audio.take frameSize ++ List.replicate (frameSize - audio.length) SILENCE)
      :: chunkLoop frameSize fuel (audio.drop frameSize)

/-- Embeds `chunkDtmfAudio` (src/dtmf.ts, lines 140-151).  For `frameSize = 0`
the JS loop never advances (`offset += 0`), so the embedding is only used with
`frameSize > 0`, which every claim assumes and the single call site
(`chunkDtmfAudio(dtmfAudio)`, frame size 160) satisfies. -/
def chunkDtmfAudio (audio : List Nat) (frameSize : Nat) : List (List Nat) :=
  if frameSize = 0 then [] else chunkLoop frameSize audio.length audio

/-- The smallest multiple of `f` that is ≥ `n` (for `f > 0`):
`f * ceil(n / f)`. -/
def padTo (f n : Nat) : Nat := f * ((n + f - 1) / f)

/-! ## Webhook signature verification (src/webhook-security.ts) -/

/-- JS `<` on strings, lexicographic by UTF-16 code unit, on the underlying
character lists (the keys compared in this code are ASCII form-field names,
where code points and UTF-16 units agree). -/
def jsStrLtChars : List Char → List Char → Bool
  | _, [] => false
  | [], _ :: _ => true
  | a :: as, b :: bs =>
    if a.val < b.val then true
    else if b.val < a.val then false
    else jsStrLtChars as bs

/-- JS string comparison `a < b`. -/
def jsStrLt (a b : String) : Bool := jsStrLtChars a.data b.data

/-- The comparator `(a, b) => a[0] < b[0] ? -1 : a[0] > b[0] ? 1 : 0` of
`validateTwilioSignature` as the "may come first" relation: `a` may precede
`b` iff the comparator is ≤ 0, i.e. iff `¬ (b.key < a.key)`. -/
def twilioKeyLe (a b : String × String) : Prop := jsStrLt b.1 a.1 = false

instance : DecidableRel twilioKeyLe := fun a b => by
  unfold twilioKeyLe; infer_instance

/-- `Array.prototype.toSorted` with the key comparator.  `toSorted` is a
stable sort, and a stable sort by a fixed comparator has a unique result, so
any stable sorting algorithm is a faithful model; `List.insertionSort`
(which keeps earlier elements in front of later comparator-equal ones) is
used here because it is structurally recursive. -/
def sortParams (params : List (String × String)) : List (String × String) :=
  List.insertionSort twilioKeyLe params

/-- The `dataToSign` accumulation of `validateTwilioSignature`
(src/webhook-security.ts, lines 23-33): the URL followed by `key + value` for
every body pair in sorted order. -/
def dataToSign (url : String) (params : List (String × String)) : String :=
  (sortParams params).foldl (fun acc kv => acc ++ kv.1 ++ kv.2) url

/-- Embeds `timingSafeEqual` (src/webhook-security.ts, lines 48-59): false on
length mismatch, otherwise byte equality (`crypto.timingSafeEqual` compares
the buffers for equality; the constant-time aspect is a timing property with
no functional content). -/
def timingSafeEqual (a b : String) : Bool :=
  if a.length ≠ b.length then false else a == b

/-- Embeds `validateTwilioSignature` (src/webhook-security.ts, lines 13-43).
`params` is the entry list of the `URLSearchParams` body, in body order,
repeated keys kept.  `hmacSha1Base64 authToken data` abstracts
`crypto.createHmac("sha1", authToken).update(data).digest("base64")`, the
only step taken from node:crypto rather than from this repository; everything
around it (sorting, concatenation, comparison) is from the source. -/
def validateTwilioSignature (hmacSha1Base64 : String → String → String)
    (authToken : String) (signature : Option String) (url : String)
    (params : List (String × String)) : Bool :=
  match signature with
  | none => false
  | some sig => timingSafeEqual sig (hmacSha1Base64 authToken (dataToSign url params))

/-! ## Call states (src/types.ts via src/manager.ts) -/

/-- The `CallState` union: progression states and terminal states. -/
inductive CallState
  | initiated
  | ringing
  | answered
  | active
  | speaking
  | listening
  | completed
  | busy
  | noAnswer
  | failed
  | hangupBot
  | timeout
  | error
deriving DecidableEq, Repr, Fintype

/-- Modelled from the spec: `TerminalStates` is declared in src/types.ts,
which is not among the provided sources; the spec (§3) lists the terminal
states as `completed`, `busy`, `no-answer`, `failed`, `hangup-bot`,
`timeout`, `error`, and manager.ts treats exactly the non-progression states
as terminal. -/
def TerminalStates : CallState → Bool
  | .completed => true
  | .busy => true
  | .noAnswer => true
  | .failed => true
  | .hangupBot => true
  | .timeout => true
  | .error => true
  | _ => false

/-- `CallManager.ConversationStates` (src/manager.ts, lines 584-587). -/
def ConversationStates : CallState → Bool
  | .speaking => true
  | .listening => true
  | _ => false

/-- `CallManager.StateOrder` (src/manager.ts, lines 589-596). -/
def StateOrder : List CallState :=
  [.initiated, .ringing, .answered, .active, .speaking, .listening]

/-- JS `Array.prototype.indexOf`: the index of the element, or `-1`. -/
def jsIndexOf (l : List CallState) (x : CallState) : Int :=
  match l.findIdx? (fun y => decide (y = x)) with
  | some i => (i : Int)
  | none => -1

/-- Embeds `CallManager.transitionState` (src/manager.ts, lines 598-620),
returning the state after the attempted move from `s` to `newState`. -/
def transitionState (s newState : CallState) : CallState :=
  if s = newState ∨ TerminalStates s then s
  else if TerminalStates newState then newState
  else if ConversationStates s ∧ ConversationStates newState then newState
  else if jsIndexOf StateOrder s < jsIndexOf StateOrder newState then newState
  else s

/-- The `event.reason as CallState` cast in the `call.ended` branch of
`processEvent`: the reason string interpreted as a state name where it is
one, left as an unknown tag otherwise. -/
def stringToCallState (s : String) : Option CallState :=
  match s with
  | "initiated" => some .initiated
  | "ringing" => some .ringing
  | "answered" => some .answered
  | "active" => some .active
  | "speaking" => some .speaking
  | "listening" => some .listening
  | "completed" => some .completed
  | "busy" => some .busy
  | "no-answer" => some .noAnswer
  | "failed" => some .failed
  | "hangup-bot" => some .hangupBot
  | "timeout" => some .timeout
  | "error" => some .error
  | _ => none

/-- `transitionState(call, event.reason as CallState)`: an unknown reason
string is in neither state set and has `indexOf = -1 ≤ currentIndex`, so the
state is left unchanged; a known reason behaves as that state. -/
def endedTransition (s : CallState) (reason : String) : CallState :=
  match stringToCallState reason with
  | some t => transitionState s t
  | none => s

/-! ## Call records and normalized events (src/types.ts via src/manager.ts) -/

inductive Speaker
  | bot
  | user
deriving DecidableEq, Repr

/-- A transcript entry `(timestamp, speaker, text, isFinal)`. -/
structure TranscriptEntry where
  timestamp : Nat
  speaker : Speaker
  text : String
  isFinal : Bool
deriving DecidableEq, Repr

/-- The `CallRecord` of src/types.ts, with the fields manager.ts reads or
writes.  `fromNum`/`toNum` are the `from`/`to` E.164 strings (`from` is a
Lean keyword); `initialMessage` stands for `metadata.initialMessage`. -/
structure CallRecord where
  callId : String
  providerCallId : Option String
  state : CallState
  fromNum : String
  toNum : String
  sessionKey : Option String
  startedAt : Nat
  answeredAt : Option Nat
  endedAt : Option Nat
  endReason : Option String
  transcript : List TranscriptEntry
  processedEventIds : List String
  initialMessage : Option String
deriving DecidableEq, Repr

/-- The payload-bearing discriminant of a `NormalizedEvent`. -/
inductive EventType
  | initiated
  | ringing
  | answered
  | active
  | speaking
  | speech (transcript : String) (isFinal : Bool)
  | ended (reason : String)
  | errorEvt (errMsg : String) (retryable : Bool)
  | dtmf (digits : String)
deriving DecidableEq, Repr

/-- A `NormalizedEvent` as consumed by `CallManager.processEvent`. -/
structure NormalizedEvent where
  id : String
  callId : String
  providerCallId : Option String
  timestamp : Nat
  etype : EventType
deriving DecidableEq, Repr

/-- Which code path removed a record from the active map (ghost tag). -/
inductive EvictPath
  | endedEvent
  | errorEvent
  | endCallHangup
  | initiateFailure
deriving DecidableEq, Repr

/-- Whether that eviction path invokes the `onCallComplete` callback in the
source: the `call.ended` branch and `endCall` do (lines 410-416 and 319-325
of src/manager.ts); the non-retryable `call.error` branch (lines 424-436) and
the REST-create failure path of `initiateCall` (lines 163-178) do not. -/
def firesCallback : EvictPath → Bool
  | .endedEvent => true
  | .endCallHangup => true
  | .errorEvent => false
  | .initiateFailure => false

/-- The `CallManager` state.  `activeCalls`, `providerCallIdMap`,
`processedEventIds` and `maxDurationTimers` (as the list `timers` of call ids
with a pending timer) are the fields of the class; `completions` (arguments
of `onCallComplete` invocations), `evicted` (records removed from
`activeCalls`, tagged with the removing path), `hangupsIssued`
(`provider.hangupCall` requests) and `staleRewritten` (stale records
rewritten by `loadActiveCalls`) are ghost logs of the observable calls the
manager makes, in order. -/
structure ManagerState where
  activeCalls : List (String × CallRecord)
  providerCallIdMap : List (String × String)
  processedEventIds : List String
  timers : List String
  completions : List CallRecord
  evicted : List (CallRecord × EvictPath)
  hangupsIssued : List (String × String)
  staleRewritten : List CallRecord
deriving DecidableEq, Repr

/-- The manager state right after construction. -/
def initialState : ManagerState :=
  { activeCalls := [], providerCallIdMap := [], processedEventIds := [],
    timers := [], completions := [], evicted := [], hangupsIssued := [],
    staleRewritten := [] }

/-- The configuration fields manager.ts reads.  `fromNumber` is the resolved
`config.fromNumber || (mock ? "+15550000000" : undefined)`. -/
structure Config where
  maxConcurrentCalls : Nat
  maxDurationSeconds : Nat
  fromNumber : Option String
deriving DecidableEq, Repr

/-! ## Call manager operations (src/manager.ts) -/

/-- The linear fallback scan of `getCallByProviderCallId` (src/manager.ts,
lines 458-463): first active record whose `providerCallId` equals the given
one, together with its map key. -/
def scanPid (m : ManagerState) (pid : String) : Option (String × CallRecord) :=
  m.activeCalls.find? (fun kv => decide (kv.2.providerCallId = some pid))

/-- Embeds `findCall` plus `getCallByProviderCallId` (src/manager.ts, lines
452-464 and 525-529), returning the map key alongside the record so that the
in-place JS mutation of the found object can be modelled as a write-back at
that key.  `if (callId)` on the reverse-map hit is JS truthiness, hence the
empty-string check. -/
def findCall (m : ManagerState) (x : String) : Option (String × CallRecord) :=
  match mapGet m.activeCalls x with
  | some c => some (x, c)
  | none =>
    match mapGet m.providerCallIdMap x with
    | some cid =>
      if cid = "" then scanPid m x
      else (mapGet m.activeCalls cid).map (fun c => (cid, c))
    | none => scanPid m x

/-- The provider-call-id rebinding step of `processEvent` (src/manager.ts,
lines 356-366).  `event.providerCallId &&` and `if (previousProviderCallId)`
are JS truthiness tests, hence the empty-string guards. -/
def rebindProviderId (m : ManagerState) (c : CallRecord) (e : NormalizedEvent) :
    ManagerState × CallRecord :=
  match e.providerCallId with
  | none => (m, c)
  | some p =>
    if p ≠ "" ∧ c.providerCallId ≠ some p then
      let prev := c.providerCallId
      let c1 := { c with providerCallId := some p }
      let m1 := { m with providerCallIdMap := mapSet m.providerCallIdMap p c1.callId }
      match prev with
      | some q =>
        if q ≠ "" ∧ mapGet m1.providerCallIdMap q = some c1.callId then
          ({ m1 with providerCallIdMap := mapDelete m1.providerCallIdMap q }, c1)
        else (m1, c1)
      | none => (m1, c1)
    else (m, c)

/-- `this.activeCalls.set` of the (in JS, in-place mutated) record at the map
key it was found under. -/
def saveCall (m : ManagerState) (k : String) (c : CallRecord) : ManagerState :=
  { m with activeCalls := mapSet m.activeCalls k c }

/-- `if (call.providerCallId) this.providerCallIdMap.delete(...)`: delete the
reverse-map entry when the id is present and truthy. -/
def pidDelete (l : List (String × String)) : Option String → List (String × String)
  | some p => if p = "" then l else mapDelete l p
  | none => l

/-- `startMaxDurationTimer` on the timer table: `clearMaxDurationTimer`
followed by `set` (src/manager.ts, lines 531-553). -/
def timerSet (ts : List String) (k : String) : List String := ts.erase k ++ [k]

/-- Embeds `CallManager.processEvent` (src/manager.ts, lines 344-440).
`now` is the wall clock that `Date.now()` inside `addTranscriptEntryInternal`
would read.  Transcript-waiter resolution/rejection and `persistCallRecord`
only notify callers or append to the journal and never change the record or
the maps, so they have no state-model effect. -/
def processEvent (m : ManagerState) (e : NormalizedEvent) (now : Nat) : ManagerState :=
  if m.processedEventIds.contains e.id then m
  else
    let m1 := { m with processedEventIds := m.processedEventIds ++ [e.id] }
    match findCall m1 e.callId with
    | none => m1
    | some (k, c0) =>
      let mc := rebindProviderId m1 c0 e
      let m2 := mc.1
      let c1 := { mc.2 with processedEventIds := mc.2.processedEventIds ++ [e.id] }
      match e.etype with
      | .initiated => saveCall m2 k { c1 with state := transitionState c1.state .initiated }
      | .ringing => saveCall m2 k { c1 with state := transitionState c1.state .ringing }
      | .answered =>
        let c2 := { c1 with answeredAt := some e.timestamp,
                            state := transitionState c1.state .answered }
        let m3 := saveCall m2 k c2
        { m3 with timers := timerSet m3.timers c2.callId }
      | .active => saveCall m2 k { c1 with state := transitionState c1.state .active }
      | .speaking => saveCall m2 k { c1 with state := transitionState c1.state .speaking }
      | .speech t isFinal =>
        let c2 := if isFinal then
            { c1 with transcript := c1.transcript ++
                [{ timestamp := now, speaker := .user, text := t, isFinal := true }] }
          else c1
        saveCall m2 k { c2 with state := transitionState c2.state .listening }
      | .ended reason =>
        let c2 := { c1 with endedAt := some e.timestamp, endReason := some reason,
                            state := endedTransition c1.state reason }
        let m3 := saveCall m2 k c2
        let m4 := { m3 with timers := m3.timers.erase c2.callId,
                            completions := m3.completions ++ [c2] }
        { m4 with activeCalls := mapDelete m4.activeCalls c2.callId,
                  providerCallIdMap := pidDelete m4.providerCallIdMap c2.providerCallId,
                  evicted := m4.evicted ++ [(c2, .endedEvent)] }
      | .errorEvt _ retryable =>
        if retryable then saveCall m2 k c1
        else
          let c2 := { c1 with endedAt := some e.timestamp, endReason := some "error",
                              state := transitionState c1.state .error }
          let m3 := saveCall m2 k c2
          let m4 := { m3 with timers := m3.timers.erase c2.callId }
          { m4 with activeCalls := mapDelete m4.activeCalls c2.callId,
                    providerCallIdMap := pidDelete m4.providerCallIdMap c2.providerCallId,
                    evicted := m4.evicted ++ [(c2, .errorEvent)] }
      | .dtmf _ => saveCall m2 k c1

inductive EndCallResult
  | success
  | failure (err : String)
deriving DecidableEq, Repr

/-- Embeds `CallManager.endCall` (src/manager.ts, lines 290-339).  `now` is
`Date.now()`; `hangupOk` is whether `provider.hangupCall` returned rather
than threw (the REST request itself is issued either way, recorded in
`hangupsIssued`).  `!call.providerCallId` is JS truthiness, hence the
empty-string test. -/
def endCall (m : ManagerState) (callId : String) (now : Nat) (hangupOk : Bool) :
    ManagerState × EndCallResult :=
  match mapGet m.activeCalls callId with
  | none => (m, .failure "Call not found")
  | some call =>
    match call.providerCallId with
    | none => (m, .failure "Call not connected")
    | some pid =>
      if pid = "" then (m, .failure "Call not connected")
      else if TerminalStates call.state then (m, .success)
      else
        let m1 := { m with hangupsIssued := m.hangupsIssued ++ [(pid, "hangup-bot")] }
        if hangupOk then
          let call1 := { call with state := .hangupBot, endedAt := some now,
                                   endReason := some "hangup-bot" }
          let m2 := saveCall m1 callId call1
          let m3 := { m2 with timers := m2.timers.erase callId,
                              completions := m2.completions ++ [call1] }
          ({ m3 with activeCalls := mapDelete m3.activeCalls callId,
                     providerCallIdMap := mapDelete m3.providerCallIdMap pid,
                     evicted := m3.evicted ++ [(call1, .endCallHangup)] }, .success)
        else (m1, .failure "hangup failed")

/-- Embeds the `setTimeout` body of `startMaxDurationTimer` (src/manager.ts,
lines 539-550), run when the max-duration timer for `callId` expires: drop
the timer entry, and if the call is still active and non-terminal, set
`endReason = "timeout"`, persist, and call `endCall`. -/
def timerFire (m : ManagerState) (callId : String) (now : Nat) (hangupOk : Bool) :
    ManagerState :=
  let m1 := { m with timers := m.timers.erase callId }
  match mapGet m1.activeCalls callId with
  | none => m1
  | some call =>
    if TerminalStates call.state then m1
    else
      let call1 := { call with endReason := some "timeout" }
      let m2 := saveCall m1 callId call1
      (endCall m2 callId now hangupOk).1

/-- The caller-controlled and environment-controlled inputs of one
`initiateCall` run: `newCallId` is the `crypto.randomUUID()` draw, `now` the
clock, `preflightOk` the outcome of `ensurePublicWebhookReachable`, and
`restResult` the provider REST create outcome (`some providerCallId` on
success, `none` when it throws). -/
structure InitiateParams where
  toNum : String
  sessionKey : Option String
  message : Option String
  newCallId : String
  now : Nat
  preflightOk : Bool
  restResult : Option String
deriving DecidableEq, Repr

inductive InitiateOutcome
  | success (callId : String)
  | failure (err : String)
deriving DecidableEq, Repr

/-- Embeds `CallManager.initiateCall` (src/manager.ts, lines 87-179), for a
manager with provider and webhook URL initialized. -/
def initiateCall (cfg : Config) (m : ManagerState) (p : InitiateParams) :
    ManagerState × InitiateOutcome :=
  if ¬ p.preflightOk then (m, .failure "preflight failed")
  else if cfg.maxConcurrentCalls ≤ m.activeCalls.length then
    (m, .failure "Maximum concurrent calls reached")
  else
    match cfg.fromNumber with
    | none => (m, .failure "fromNumber not configured")
    | some fromNum =>
      let rec0 : CallRecord :=
        { callId := p.newCallId, providerCallId := none, state := .initiated,
          fromNum := fromNum, toNum := p.toNum, sessionKey := p.sessionKey,
          startedAt := p.now, answeredAt := none, endedAt := none,
          endReason := none, transcript := [], processedEventIds := [],
          initialMessage := p.message }
      let m1 := { m with activeCalls := mapSet m.activeCalls p.newCallId rec0 }
      match p.restResult with
      | some pid =>
        let rec1 := { rec0 with providerCallId := some pid }
        ({ m1 with activeCalls := mapSet m1.activeCalls p.newCallId rec1,
                   providerCallIdMap := mapSet m1.providerCallIdMap pid p.newCallId },
         .success p.newCallId)
      | none =>
        let rec1 := { rec0 with state := .failed, endedAt := some p.now,
                                endReason := some "failed" }
        ({ m1 with
           activeCalls := mapDelete (mapSet m1.activeCalls p.newCallId rec1) p.newCallId,
           evicted := m1.evicted ++ [(rec1, .initiateFailure)] },
         .failure "REST create failed")

/-- `CallManager.STALE_CALL_THRESHOLD_MS` (src/manager.ts, line 648). -/
def STALE_CALL_THRESHOLD_MS : Nat := 5 * 60 * 1000

/-- Embeds `CallManager.loadActiveCalls` (src/manager.ts, lines 650-705).
`lines` is the parsed journal in file order (invalid lines already skipped);
the first fold keeps the last record per `callId`, the second reloads young
non-terminal records.  The JS age `now - (call.startedAt || 0)` can be
negative, in which case it is not `> threshold`; truncated `Nat` subtraction
agrees.  Stale records are rewritten terminal and persisted, recorded in the
`staleRewritten` ghost log. -/
def loadActiveCalls (m : ManagerState) (lines : List CallRecord) (now : Nat) :
    ManagerState :=
  let callMap := lines.foldl (fun acc c => mapSet acc c.callId c) []
  callMap.foldl
    (fun acc kv =>
      let call := kv.2
      if TerminalStates call.state then acc
      else if STALE_CALL_THRESHOLD_MS < now - call.startedAt then
        { acc with staleRewritten :=
            acc.staleRewritten ++ [{ call with state := .error, endedAt := some now }] }
      else
        { acc with activeCalls := mapSet acc.activeCalls kv.1 call,
                   providerCallIdMap :=
                     match call.providerCallId with
                     | some p => if p = "" then acc.providerCallIdMap
                                 else mapSet acc.providerCallIdMap p kv.1
                     | none => acc.providerCallIdMap,
                   processedEventIds := acc.processedEventIds ++ call.processedEventIds })
    m

/-! ## Operation sequences on the manager -/

/-- One externally triggered manager operation: a webhook event delivery, an
`endCall` request, a max-duration timer expiry, or an `initiateCall`.
The spec (§5) serializes all manager mutations, so a run is a sequence of
these atomic operations. -/
inductive Op
  | webhookEvent (e : NormalizedEvent) (now : Nat)
  | hangup (callId : String) (now : Nat) (hangupOk : Bool)
  | timerExpiry (callId : String) (now : Nat) (hangupOk : Bool)
  | dial (p : InitiateParams)
deriving DecidableEq, Repr

def applyOp (cfg : Config) (m : ManagerState) : Op → ManagerState
  | .webhookEvent e now => processEvent m e now
  | .hangup callId now ok => (endCall m callId now ok).1
  | .timerExpiry callId now ok => timerFire m callId now ok
  | .dial p => (initiateCall cfg m p).1

def run (cfg : Config) (m : ManagerState) : List Op → ManagerState
  | [] => m
  | op :: ops => run cfg (applyOp cfg m op) ops

/-- Freshness of a `crypto.randomUUID()` draw: the new call id collides with
no id the manager has seen (active or already evicted). -/
def opFresh (m : ManagerState) : Op → Bool
  | .dial p =>
    !(m.activeCalls.any (fun kv => decide (kv.1 = p.newCallId))) &&
    !(m.evicted.any (fun ev => decide (ev.1.callId = p.newCallId)))
  | _ => true

/-- Every `dial` along the run draws a fresh call id. -/
def freshRun (cfg : Config) (m : ManagerState) : List Op → Bool
  | [] => true
  | op :: ops => opFresh m op && freshRun cfg (applyOp cfg m op) ops

/-! ## Media-stream handler (MediaStreamHandler in src/media-stream.ts) -/

/-- A `StreamSession`: the per-stream record of `MediaStreamHandler`.
`callId` is the carrier `callSid` (the provider call id); `wsId` stands for
the web-socket object identity. -/
structure StreamSession where
  callId : String
  streamSid : String
  wsId : Nat
deriving DecidableEq, Repr

/-- The `MediaStreamHandler` state: `sessions` is the `streamSid`-keyed
session map; `connSession` tracks each live connection handler closure and
its local `session` variable; `closedWs` (sockets on which `ws.close()` was
called) and `createdModel` (`conversationProvider.createSession` calls,
tagged with socket and call) are ghost logs. -/
structure HandlerState where
  sessions : List (String × StreamSession)
  connSession : List (Nat × StreamSession)
  closedWs : List Nat
  createdModel : List (Nat × String)
deriving DecidableEq, Repr

def initialHandler : HandlerState :=
  { sessions := [], connSession := [], closedWs := [], createdModel := [] }

/-- Embeds `MediaStreamHandler.handleStart` (src/media-stream.ts, lines
148-311): if any existing session has the same `callSid`, close the new
socket and return null; otherwise create a model session, register the
stream session under its `streamSid`, and return it. -/
def handleStart (st : HandlerState) (wsId : Nat) (streamSid callSid : String) :
    HandlerState × Option StreamSession :=
  if st.sessions.any (fun kv => decide (kv.2.callId = callSid)) then
    ({ st with closedWs := st.closedWs ++ [wsId] }, none)
  else
    let s : StreamSession := { callId := callSid, streamSid := streamSid, wsId := wsId }
    ({ st with sessions := mapSet st.sessions streamSid s,
               createdModel := st.createdModel ++ [(wsId, callSid)] }, some s)

/-- Embeds `MediaStreamHandler.handleStop` (src/media-stream.ts, lines
316-322): close the model session and drop the stream entry. -/
def handleStop (st : HandlerState) (sess : StreamSession) : HandlerState :=
  { st with sessions := mapDelete st.sessions sess.streamSid }

/-- The carrier media-stream messages that change handler state, tagged with
the connection they arrive on (`stopMsg` covers both the `stop` event and the
web-socket `close` event, whose handlers are identical on this state;
`connected`, `media` and `mark` messages do not touch the session table). -/
inductive StreamMsg
  | start (wsId : Nat) (streamSid callSid : String)
  | stopMsg (wsId : Nat)
deriving DecidableEq, Repr

/-- One message step of the per-connection handler of `handleConnection`
(src/media-stream.ts, lines 77-143): `start` assigns the connection-local
`session` variable from `handleStart` (null on a duplicate); `stop`/`close`
run `handleStop` on the connection-local session, if any, and null it. -/
def streamStep (st : HandlerState) : StreamMsg → HandlerState
  | .start w sid csid =>
    let r := handleStart st w sid csid
    match r.2 with
    | some sess => { r.1 with connSession := mapSet r.1.connSession w sess }
    | none => { r.1 with connSession := mapDelete r.1.connSession w }
  | .stopMsg w =>
    match mapGet st.connSession w with
    | some sess => { handleStop st sess with connSession := mapDelete st.connSession w }
    | none => st

def streamRun (st : HandlerState) : List StreamMsg → HandlerState
  | [] => st
  | msg :: msgs => streamRun (streamStep st msg) msgs

/-! ## Spec-side definitions used by the claims -/

/-- Position in the progression
`initiated → ringing → answered → active → speaking/listening` as the spec
words it (the two conversation states share the final slot).  Terminal states
take no part in the progression; the value returned for them is never
consulted by `specAdmits` (a terminal target is admitted outright and a
terminal source refuses every move). -/
def specOrdinal : CallState → Nat
  | .initiated => 0
  | .ringing => 1
  | .answered => 2
  | .active => 3
  | .speaking => 4
  | .listening => 4
  | _ => 0

/-- The admission rule exactly as the spec states it (§4.6): a move from `s`
to `t` is admitted iff (a) `s` is non-terminal and (b) `t` is terminal, or
both states are conversation states, or the ordinal of `t` in the progression
is strictly greater than that of `s`. -/
def specAdmits (s t : CallState) : Bool :=
  !TerminalStates s &&
    (TerminalStates t || (ConversationStates s && ConversationStates t) ||
      decide (specOrdinal s < specOrdinal t))

/-- Claim-side DTMF layout, following the claim words for C7: a tone block per
tone character, a pause block per `W`, nothing for a skipped character, and a
silence gap after a tone only when a further *tone* follows (so no gap after
the last tone, in particular none when the string ends in `w` or in a skipped
character). -/
def dtmfClaimChunks (pcm : Nat → Nat → Nat → Int) (toneSamples gapSamples pauseSamples : Nat) :
    List Char → List (List Nat)
  | [] => []
  | c :: rest =>
    let digit := c.toUpper
    if digit = 'W' then
      List.replicate pauseSamples SILENCE ::
        dtmfClaimChunks pcm toneSamples gapSamples pauseSamples rest
    else
      match DTMF_FREQUENCIES digit with
      | none => dtmfClaimChunks pcm toneSamples gapSamples pauseSamples rest
      | some (f1, f2) =>
        let tone := (List.range toneSamples).map (fun s => linearToMulaw (pcm f1 f2 s))
        if rest.any (fun d => (DTMF_FREQUENCIES d.toUpper).isSome) then
          tone :: List.replicate gapSamples SILENCE ::
            dtmfClaimChunks pcm toneSamples gapSamples pauseSamples rest
        else
          tone :: dtmfClaimChunks pcm toneSamples gapSamples pauseSamples rest

/-- The C7 claim, assembled: `generateDtmf` as the claim describes it. -/
def generateDtmfClaim (pcm : Nat → Nat → Nat → Int) (digits : List Char)
    (toneDurationMs gapMs : Nat) : List Nat :=
  let toneSamples := SAMPLE_RATE * toneDurationMs / 1000
  let gapSamples := SAMPLE_RATE * gapMs / 1000
  let pauseSamples := SAMPLE_RATE * 500 / 1000
  (dtmfClaimChunks pcm toneSamples gapSamples pauseSamples digits).flatten

/-- Per-character-position output block of the amended C7 claim: the block for
position `i` of `digits` is a pause for `W`, nothing for a skipped character,
and for a tone the tone block followed by a silence gap iff `i` is not the
last position of the string (`i + 1 < digits.length`, the JS test
`i < digits.length - 1`), regardless of what kind of character follows. -/
def dtmfCharBlock (pcm : Nat → Nat → Nat → Int) (toneSamples gapSamples pauseSamples : Nat)
    (digits : List Char) (i : Nat) : List Nat :=
  let digit := (digits.getD i ' ').toUpper
  if digit = 'W' then List.replicate pauseSamples SILENCE
  else
    match DTMF_FREQUENCIES digit with
    | none => []
    | some (f1, f2) =>
      ((List.range toneSamples).map (fun s => linearToMulaw (pcm f1 f2 s))) ++
        (if i + 1 < digits.length then List.replicate gapSamples SILENCE else [])

/-- The amended C7 claim, assembled positionally: the output is the
concatenation, over character positions, of the per-position blocks. -/
def generateDtmfAmended (pcm : Nat → Nat → Nat → Int) (digits : List Char)
    (toneDurationMs gapMs : Nat) : List Nat :=
  let toneSamples := SAMPLE_RATE * toneDurationMs / 1000
  let gapSamples := SAMPLE_RATE * gapMs / 1000
  let pauseSamples := SAMPLE_RATE * 500 / 1000
  (List.range digits.length).flatMap (dtmfCharBlock pcm toneSamples gapSamples pauseSamples digits)

/-- A concrete stand-in for the abstracted PCM sampler (counterexamples only
need the block layout, which is sampler independent). -/
def pcmZero : Nat → Nat → Nat → Int := fun _ _ _ => 0

/-- A concrete stand-in for the abstracted HMAC-SHA1-base64 function, used to
evaluate `validateTwilioSignature` at concrete inputs: it returns the base
string itself (any function of the base string exhibits the same
sorted-then-concatenated behaviour). -/
def hmacIdentity : String → String → String := fun _ data => data

/-! ## Manager invariant (definitions for the C1/C4 development) -/

def activeKeys (m : ManagerState) : List String := mapKeys m.activeCalls

def evictedIds (m : ManagerState) : List String := m.evicted.map (fun ev => ev.1.callId)

/-- The non-terminal records currently in the active map. -/
def nonTerminalActive (m : ManagerState) : List (String × CallRecord) :=
  m.activeCalls.filter (fun kv => !TerminalStates kv.2.state)

/-- Operational invariant of the call manager, preserved by every operation
(given fresh UUID draws): the active map is keyed by the record call ids
without duplicates, holds only non-terminal records, and respects the
concurrency cap; no call id is evicted twice; and the completion-callback log
is exactly the eviction log restricted to the paths that fire the callback. -/
structure MgrInv (cfg : Config) (m : ManagerState) : Prop where
  keysNodup : (activeKeys m).Nodup
  keyCoherent : ∀ kv ∈ m.activeCalls, kv.2.callId = kv.1
  activeNonTerminal : ∀ kv ∈ m.activeCalls, TerminalStates kv.2.state = false
  capLe : m.activeCalls.length ≤ cfg.maxConcurrentCalls
  evictedNodup : (evictedIds m).Nodup
  disjointIds : ∀ k ∈ activeKeys m, k ∉ evictedIds m
  completionsEq : m.completions =
    (m.evicted.filter (fun ev => firesCallback ev.2)).map (fun ev => ev.1)

/-! ## Concrete inputs for witnesses and counterexamples -/

def cfgDemo : Config :=
  { maxConcurrentCalls := 1, maxDurationSeconds := 300, fromNumber := some "+15550000000" }

def pDemo : InitiateParams :=
  { toNum := "+15550001234", sessionKey := some "s1", message := some "Hi",
    newCallId := "c1", now := 0, preflightOk := true, restResult := some "P1" }

def evAnswered : NormalizedEvent :=
  { id := "e1", callId := "c1", providerCallId := some "P1", timestamp := 10,
    etype := .answered }

def evEnded : NormalizedEvent :=
  { id := "e2", callId := "c1", providerCallId := some "P1", timestamp := 20,
    etype := .ended "completed" }

def evErr : NormalizedEvent :=
  { id := "e3", callId := "c1", providerCallId := some "P1", timestamp := 20,
    etype := .errorEvt "boom" false }

/-- A happy-path run: dial, answer, carrier-completed. -/
def opsHappy : List Op :=
  [.dial pDemo, .webhookEvent evAnswered 10, .webhookEvent evEnded 20]

/-- A run ending in a non-retryable `call.error`. -/
def opsError : List Op :=
  [.dial pDemo, .webhookEvent evErr 20]

/-- An answered in-flight call, as the max-duration timer would find it. -/
def answeredRec : CallRecord :=
  { callId := "c1", providerCallId := some "PA", state := .answered,
    fromNum := "+15550000000", toNum := "+15550001234", sessionKey := some "s1",
    startedAt := 0, answeredAt := some 5, endedAt := none, endReason := none,
    transcript := [], processedEventIds := ["e1"], initialMessage := none }

def timerDemoState : ManagerState :=
  { initialState with activeCalls := [("c1", answeredRec)],
                      providerCallIdMap := [("PA", "c1")], timers := ["c1"] }

/-- Two young non-terminal journal records with distinct call ids. -/
def recA : CallRecord :=
  { callId := "a", providerCallId := some "PX", state := .initiated,
    fromNum := "+1", toNum := "+2", sessionKey := none, startedAt := 1000,
    answeredAt := none, endedAt := none, endReason := none, transcript := [],
    processedEventIds := [], initialMessage := none }

def recB : CallRecord :=
  { callId := "b", providerCallId := some "PY", state := .ringing,
    fromNum := "+1", toNum := "+3", sessionKey := none, startedAt := 1000,
    answeredAt := none, endedAt := none, endReason := none, transcript := [],
    processedEventIds := [], initialMessage := none }

/-- A media-stream handler with one live session for provider call `CA1`. -/
def streamDemoState : HandlerState :=
  { sessions := [("S1", { callId := "CA1", streamSid := "S1", wsId := 1 })],
    connSession := [(1, { callId := "CA1", streamSid := "S1", wsId := 1 })],
    closedWs := [], createdModel := [(1, "CA1")] }

/-- The provider call ids of the live stream sessions, in table order. -/
def sessionCallIds (st : HandlerState) : List String :=
  st.sessions.map (fun kv => kv.2.callId)

/-- Strict key order on body pairs (used to show sorted outputs unique). -/
def keyLtP (a b : String × String) : Prop := jsStrLt a.1 b.1 = true

/-!
# Theorems

Helper lemmas first, then one theorem per claim (with witnesses and
counterexamples where the claim statuses require them).
-/

/-! ## Helper lemmas: µ-law -/

theorem mulawExpLoop_le (s : Nat) : ∀ e mask, mulawExpLoop s e mask ≤ e := by
  intro e
  induction e with
  | zero => intro mask; simp [mulawExpLoop]
  | succ e ih =>
    intro mask
    simp only [mulawExpLoop]
    split
    · exact le_trans (ih _) (Nat.le_succ e)
    · exact le_refl _

theorem linearToMulaw_lt (s : Int) : linearToMulaw s < 256 := by
  unfold linearToMulaw
  have hsign : (if s < 0 then (0x80 : Nat) else 0) < 2 ^ 8 := by split <;> norm_num
  have he : mulawExpLoop ((if s.natAbs > 32635 then 32635 else s.natAbs) + 0x84) 7 0x4000 ≤ 7 :=
    mulawExpLoop_le _ 7 _
  have hexp : (mulawExpLoop ((if s.natAbs > 32635 then 32635 else s.natAbs) + 0x84) 7 0x4000 <<< 4)
      < 2 ^ 8 := by
    rw [Nat.shiftLeft_eq]
    have : (2 : Nat) ^ 4 = 16 := by norm_num
    rw [this]
    have : (2 : Nat) ^ 8 = 256 := by norm_num
    rw [this]
    omega
  have hm : (((if s.natAbs > 32635 then 32635 else s.natAbs) + 0x84) >>>
      (mulawExpLoop ((if s.natAbs > 32635 then 32635 else s.natAbs) + 0x84) 7 0x4000 + 3) &&& 0x0f)
      < 2 ^ 8 := by
    have h1 := @Nat.and_le_right
      (((if s.natAbs > 32635 then 32635 else s.natAbs) + 0x84) >>>
        (mulawExpLoop ((if s.natAbs > 32635 then 32635 else s.natAbs) + 0x84) 7 0x4000 + 3))
      0x0f
    have h2 : (2 : Nat) ^ 8 = 256 := by norm_num
    omega
  have hor1 := Nat.or_lt_two_pow hsign hexp
  have hor2 := Nat.or_lt_two_pow hor1 hm
  have hff : (0xff : Nat) < 2 ^ 8 := by norm_num
  have := Nat.xor_lt_two_pow hor2 hff
  simpa using this

/-- C10: `linearToMulaw` is total on all integer PCM samples (it is a Lean
function, and the bound below holds for every input): the exponent search
terminates by construction (structural recursion on the loop variable), every
result is a byte in [0, 255], and the zero sample encodes to `0xFF`, the
µ-law silence byte `SILENCE` that `generateDtmfAudio` uses for gaps and
pauses and that `chunkDtmfAudio` pads tail frames with. -/
theorem linearToMulaw_total_byte_silence :
    (∀ s : Int, linearToMulaw s ≤ 255) ∧ linearToMulaw 0 = SILENCE ∧ SILENCE = 0xff :=
  ⟨fun s => by have := linearToMulaw_lt s; omega, by decide, by decide⟩

/-- C3: `transitionState` moves `s` to `t` precisely when the admission rule
of the spec allows it — `s` non-terminal and (`t` terminal, or both states
conversational, or the ordinal of `t` in the progression strictly greater) —
and leaves the state unchanged in every other case, including every move
attempted from a terminal state. -/
theorem transitionState_iff_specAdmits :
    ∀ s t, transitionState s t = if specAdmits s t then t else s := by decide

/-! ## Helper lemmas: processEvent bookkeeping -/

theorem rebind_fst (m : ManagerState) (c : CallRecord) (e : NormalizedEvent) :
    (rebindProviderId m c e).1.activeCalls = m.activeCalls ∧
    (rebindProviderId m c e).1.processedEventIds = m.processedEventIds ∧
    (rebindProviderId m c e).1.completions = m.completions ∧
    (rebindProviderId m c e).1.evicted = m.evicted ∧
    (rebindProviderId m c e).1.timers = m.timers ∧
    (rebindProviderId m c e).1.hangupsIssued = m.hangupsIssued ∧
    (rebindProviderId m c e).1.staleRewritten = m.staleRewritten := by
  unfold rebindProviderId
  rcases e.providerCallId with _ | p
  · exact ⟨rfl, rfl, rfl, rfl, rfl, rfl, rfl⟩
  · dsimp only
    split
    · rcases c.providerCallId with _ | q
      · exact ⟨rfl, rfl, rfl, rfl, rfl, rfl, rfl⟩
      · dsimp only
        split
        · exact ⟨rfl, rfl, rfl, rfl, rfl, rfl, rfl⟩
        · exact ⟨rfl, rfl, rfl, rfl, rfl, rfl, rfl⟩
    · exact ⟨rfl, rfl, rfl, rfl, rfl, rfl, rfl⟩

theorem rebind_callId (m : ManagerState) (c : CallRecord) (e : NormalizedEvent) :
    (rebindProviderId m c e).2.callId = c.callId := by
  unfold rebindProviderId
  rcases e.providerCallId with _ | p
  · rfl
  · dsimp only
    split
    · rcases c.providerCallId with _ | q
      · rfl
      · dsimp only
        split
        · rfl
        · rfl
    · rfl

theorem processEvent_ids (m : ManagerState) (e : NormalizedEvent) (now : Nat)
    (h : m.processedEventIds.contains e.id = false) :
    (processEvent m e now).processedEventIds = m.processedEventIds ++ [e.id] := by
  unfold processEvent
  rw [h]
  simp only [Bool.false_eq_true, if_false]
  split
  · rfl
  · rename_i k c0 heq
    have hr := (rebind_fst ({ m with processedEventIds := m.processedEventIds ++ [e.id] }) c0 e).2.1
    cases e.etype <;>
      simp_all [saveCall] <;>
      (try split) <;>
      simp_all [saveCall]

/-- C5: `processEvent` is idempotent on the event id: delivering the same
normalized event a second time (at any later clock reading) leaves the whole
manager state — in particular the matched record, its state, transcript,
`processedEventIds`, `providerCallId` and timestamps — exactly as the first
delivery left it. -/
theorem processEvent_idempotent (m : ManagerState) (e : NormalizedEvent) (n1 n2 : Nat) :
    processEvent (processEvent m e n1) e n2 = processEvent m e n1 := by
  by_cases h : m.processedEventIds.contains e.id
  · have h1 : processEvent m e n1 = m := by
      unfold processEvent
      rw [h]
      simp
    rw [h1]
    unfold processEvent
    rw [h]
    simp
  · have hf : m.processedEventIds.contains e.id = false := by
      simpa using h
    have h2 : (processEvent m e n1).processedEventIds.contains e.id = true := by
      rw [processEvent_ids m e n1 hf]
      simp
    conv_lhs => rw [processEvent]
    rw [h2]
    simp

/-! ## Helper lemmas: padding arithmetic and chunking -/

theorem padTo_zero (f : Nat) : padTo f 0 = 0 := by
  unfold padTo
  rcases Nat.eq_zero_or_pos f with h | h
  · simp [h]
  · rw [Nat.div_eq_of_lt (by omega)]
    simp

theorem padTo_pos_le {f n : Nat} (hf : 0 < f) (h1 : 0 < n) (h2 : n ≤ f) : padTo f n = f := by
  unfold padTo
  have he : n + f - 1 = (n - 1) + f := by omega
  rw [he, Nat.add_div_right _ hf, Nat.div_eq_of_lt (by omega)]
  simp

theorem padTo_add {f n : Nat} (hf : 0 < f) (h : f < n) : padTo f n = f + padTo f (n - f) := by
  unfold padTo
  have h1 : n + f - 1 = ((n - f) + f - 1) + f := by omega
  rw [h1, Nat.add_div_right _ hf]
  ring

theorem le_padTo {f : Nat} (hf : 0 < f) : ∀ n, n ≤ padTo f n := by
  intro n
  induction n using Nat.strong_induction_on with
  | _ n ih =>
    rcases Nat.eq_zero_or_pos n with rfl | hn
    · simp [padTo_zero]
    · rcases le_or_lt n f with hle | hlt
      · rw [padTo_pos_le hf hn hle]; exact hle
      · rw [padTo_add hf hlt]
        have := ih (n - f) (by omega)
        omega

theorem padTo_min {f : Nat} (hf : 0 < f) : ∀ n m, f ∣ m → n ≤ m → padTo f n ≤ m := by
  intro n
  induction n using Nat.strong_induction_on with
  | _ n ih =>
    intro m hd hnm
    rcases Nat.eq_zero_or_pos n with rfl | hn
    · simp [padTo_zero]
    · rcases le_or_lt n f with hle | hlt
      · rw [padTo_pos_le hf hn hle]
        exact Nat.le_of_dvd (by omega) hd
      · rw [padTo_add hf hlt]
        have hfm : f ≤ m := Nat.le_of_dvd (by omega) hd
        have h2 : padTo f (n - f) ≤ m - f :=
          ih (n - f) (by omega) (m - f) (Nat.dvd_sub' hd dvd_rfl) (by omega)
        omega

theorem padTo_dvd (f n : Nat) : f ∣ padTo f n := Dvd.intro _ rfl

theorem chunkLoop_flatten {f : Nat} (hf : 0 < f) :
    ∀ fuel audio, audio.length ≤ fuel →
      (chunkLoop f fuel audio).flatten =
        audio ++ List.replicate (padTo f audio.length - audio.length) SILENCE := by
  intro fuel
  induction fuel with
  | zero =>
    intro audio h
    have : audio = [] := List.eq_nil_of_length_eq_zero (by omega)
    subst this
    simp [chunkLoop, padTo_zero]
  | succ fuel ih =>
    intro audio h
    match audio with
    | [] => simp [chunkLoop, padTo_zero]
    | a :: rest =>
      have hlen : (a :: rest).length = rest.length + 1 := by simp
      have hdrop : ((a :: rest).drop f).length ≤ fuel := by
        simp only [List.length_drop]
        simp at h
        omega
      simp only [chunkLoop, List.flatten_cons]
      rw [ih _ hdrop]
      rcases le_or_lt (a :: rest).length f with hle | hlt
      · have ht : (a :: rest).take f = a :: rest := List.take_of_length_le hle
        have hd : (a :: rest).drop f = [] := List.drop_eq_nil_of_le hle
        have hp : padTo f (a :: rest).length = f :=
          padTo_pos_le hf (by simp) hle
        rw [ht, hd, hp]
        simp [padTo_zero]
      · have hz : f - (a :: rest).length = 0 := by omega
        have hp : padTo f (a :: rest).length = f + padTo f ((a :: rest).length - f) :=
          padTo_add hf hlt
        have hge : (a :: rest).length - f ≤ padTo f ((a :: rest).length - f) := le_padTo hf _
        rw [hz]
        simp only [List.length_drop, List.replicate_zero, List.append_nil]
        rw [← List.append_assoc, List.take_append_drop]
        have hx : padTo f ((a :: rest).length - f) - ((a :: rest).length - f) =
            padTo f (a :: rest).length - (a :: rest).length := by omega
        rw [hx]

theorem chunkLoop_frameLength {f : Nat} :
    ∀ fuel audio c, c ∈ chunkLoop f fuel audio → c.length = f := by
  intro fuel
  induction fuel with
  | zero => intro audio c h; simp [chunkLoop] at h
  | succ fuel ih =>
    intro audio c h
    match audio with
    | [] => simp [chunkLoop] at h
    | a :: rest =>
      simp only [chunkLoop, List.mem_cons] at h
      rcases h with h | h
      · subst h
        simp only [List.length_append, List.length_take, List.length_replicate,
          List.length_cons]
        omega
      · exact ih _ _ h

/-- C8: for every µ-law buffer and every frame size `f > 0`, concatenating
the frames of `chunkDtmfAudio` gives exactly the buffer padded with the µ-law
silence byte up to `padTo f |audio|`; every frame has length exactly `f`
(order preservation is the concatenation equation itself); and `padTo f n` is
the smallest multiple of `f` that is ≥ `n`. -/
theorem chunkForStream_roundtrip (audio : List Nat) (f : Nat) (hf : 0 < f) :
    (chunkDtmfAudio audio f).flatten =
        audio ++ List.replicate (padTo f audio.length - audio.length) SILENCE ∧
      (∀ c ∈ chunkDtmfAudio audio f, c.length = f) ∧
      f ∣ padTo f audio.length ∧
      audio.length ≤ padTo f audio.length ∧
      (∀ m, f ∣ m → audio.length ≤ m → padTo f audio.length ≤ m) := by
  have hne : ¬ f = 0 := by omega
  refine ⟨?_, ?_, padTo_dvd f _, le_padTo hf _, fun m hd hm => padTo_min hf _ m hd hm⟩
  · unfold chunkDtmfAudio
    rw [if_neg hne]
    exact chunkLoop_flatten hf _ audio (le_refl _)
  · intro c hc
    unfold chunkDtmfAudio at hc
    rw [if_neg hne] at hc
    exact chunkLoop_frameLength _ _ _ hc

/-- Witness for C8 at `audio = [1, 2, 3]`, `f = 2`. -/
theorem chunkForStream_roundtrip_witness :
    (chunkDtmfAudio [1, 2, 3] 2).flatten =
        [1, 2, 3] ++ List.replicate (padTo 2 3 - 3) SILENCE ∧
      padTo 2 3 = 4 :=
  ⟨(chunkForStream_roundtrip [1, 2, 3] 2 (by decide)).1, by decide⟩

/-! ## Helper lemmas: DTMF block layout -/

theorem range_flatMap_succ {α : Type} (f : Nat → List α) (n : Nat) :
    (List.range (n + 1)).flatMap f = f 0 ++ (List.range n).flatMap (fun i => f (i + 1)) := by
  rw [List.range_succ_eq_map]
  rw [List.flatMap_cons]
  congr 1
  rw [List.flatMap_map]

theorem dtmfCharBlock_shift (pcm : Nat → Nat → Nat → Int) (tS gS pS : Nat)
    (c : Char) (rest : List Char) (i : Nat) :
    dtmfCharBlock pcm tS gS pS (c :: rest) (i + 1) = dtmfCharBlock pcm tS gS pS rest i := by
  unfold dtmfCharBlock
  simp only [List.getD_cons_succ, List.length_cons, Nat.add_lt_add_iff_right]

theorem dtmfChunks_cons (pcm : Nat → Nat → Nat → Int) (tS gS pS : Nat)
    (c : Char) (rest : List Char) :
    dtmfChunks pcm tS gS pS (c :: rest) =
      if c.toUpper = 'W' then
        List.replicate pS SILENCE :: dtmfChunks pcm tS gS pS rest
      else
        match DTMF_FREQUENCIES c.toUpper with
        | none => dtmfChunks pcm tS gS pS rest
        | some (f1, f2) =>
          if rest.isEmpty then
            ((List.range tS).map (fun s => linearToMulaw (pcm f1 f2 s))) ::
              dtmfChunks pcm tS gS pS rest
          else
            ((List.range tS).map (fun s => linearToMulaw (pcm f1 f2 s))) ::
              List.replicate gS SILENCE :: dtmfChunks pcm tS gS pS rest := rfl

theorem dtmfCharBlock_zero (pcm : Nat → Nat → Nat → Int) (tS gS pS : Nat)
    (c : Char) (rest : List Char) :
    dtmfCharBlock pcm tS gS pS (c :: rest) 0 =
      if c.toUpper = 'W' then List.replicate pS SILENCE
      else
        match DTMF_FREQUENCIES c.toUpper with
        | none => []
        | some (f1, f2) =>
          ((List.range tS).map (fun s => linearToMulaw (pcm f1 f2 s))) ++
            (if rest.isEmpty then [] else List.replicate gS SILENCE) := by
  unfold dtmfCharBlock
  simp only [List.getD_cons_zero, List.length_cons]
  cases rest with
  | nil => simp
  | cons x xs => simp

theorem dtmfChunks_eq_blocks (pcm : Nat → Nat → Nat → Int) (tS gS pS : Nat) :
    ∀ digits : List Char,
      (dtmfChunks pcm tS gS pS digits).flatten =
        (List.range digits.length).flatMap (dtmfCharBlock pcm tS gS pS digits) := by
  intro digits
  induction digits with
  | nil => simp [dtmfChunks]
  | cons c rest ih =>
    rw [List.length_cons, range_flatMap_succ]
    simp only [dtmfCharBlock_shift]
    rw [← ih, dtmfChunks_cons, dtmfCharBlock_zero]
    by_cases hW : c.toUpper = 'W'
    · rw [if_pos hW, if_pos hW]
      simp
    · rw [if_neg hW, if_neg hW]
      cases hfreq : DTMF_FREQUENCIES c.toUpper with
      | none =>
        simp
      | some fp =>
        rcases fp with ⟨f1, f2⟩
        dsimp only
        by_cases hrest : rest.isEmpty
        · rw [if_pos hrest, if_pos hrest]
          simp
        · rw [if_neg hrest, if_neg hrest]
          simp

/-- C7 counterexample: on `digits = "1w"` (defaults `toneMs = 100`,
`gapMs = 80`) the source emits a 640-byte silence gap after the tone although
the `1` is the last tone of the string — the gap test looks only at the
character position, not at whether a tone follows — so the output is 5440
bytes where the claim (tone block, then the 4000-byte `w` block, no trailing
gap after the last tone) prescribes 4800. -/
theorem generateDtmf_trailing_gap_counterexample :
    generateDtmfAudio pcmZero ['1', 'w'] 100 80 ≠ generateDtmfClaim pcmZero ['1', 'w'] 100 80 ∧
    (generateDtmfAudio pcmZero ['1', 'w'] 100 80).length = 5440 ∧
    (generateDtmfClaim pcmZero ['1', 'w'] 100 80).length = 4800 := by
  have h1 : generateDtmfAudio pcmZero ['1', 'w'] 100 80 =
      ((List.range 800).map (fun s => linearToMulaw (pcmZero 697 1209 s)) ++
        (List.replicate 640 SILENCE ++ (List.replicate 4000 SILENCE ++ []))) := rfl
  have h2 : generateDtmfClaim pcmZero ['1', 'w'] 100 80 =
      ((List.range 800).map (fun s => linearToMulaw (pcmZero 697 1209 s)) ++
        (List.replicate 4000 SILENCE ++ [])) := rfl
  have hl1 : (generateDtmfAudio pcmZero ['1', 'w'] 100 80).length = 5440 := by
    rw [h1]
    simp only [List.length_append, List.length_map, List.length_range,
      List.length_replicate, List.length_nil]
  have hl2 : (generateDtmfClaim pcmZero ['1', 'w'] 100 80).length = 4800 := by
    rw [h2]
    simp only [List.length_append, List.length_map, List.length_range,
      List.length_replicate, List.length_nil]
  refine ⟨fun h => ?_, hl1, hl2⟩
  rw [h, hl2] at hl1
  omega

/-- C7 (amended): `generateDtmfAudio` emits, per character of `digits`, an
`800`-byte µ-law dual-tone block for each of `0-9`, `*`, `#`, `A-D`
(case-insensitive), a `4000`-byte block of µ-law silence for `W`/`w`, and
nothing for any other character; a `640`-byte silence gap follows each
recognized tone whose character position is not the last position of the
string — even when only pauses or skipped characters follow — so strings
ending in `w` or in a skipped character do carry a gap after their last tone.
(Block sizes shown for the defaults `toneMs = 100`, `gapMs = 80`; the theorem
covers all durations and all samplers.) -/
theorem generateDtmf_layout_amended (pcm : Nat → Nat → Nat → Int) (digits : List Char)
    (toneDurationMs gapMs : Nat) :
    generateDtmfAudio pcm digits toneDurationMs gapMs =
      generateDtmfAmended pcm digits toneDurationMs gapMs := by
  unfold generateDtmfAudio generateDtmfAmended
  exact dtmfChunks_eq_blocks pcm _ _ _ digits

/-! ## Helper lemmas: JS string order and the body sort -/

theorem u32_lt_trichotomy (x y : UInt32) : x < y ∨ y < x ∨ x = y := by
  rcases Nat.lt_trichotomy x.toNat y.toNat with h | h | h
  · left; simp only [UInt32.lt_def, BitVec.lt_def]; exact h
  · right; right
    exact UInt32.eq_of_toBitVec_eq (BitVec.eq_of_toNat_eq h)
  · right; left; simp only [UInt32.lt_def, BitVec.lt_def]; exact h

theorem u32_lt_asymm {x y : UInt32} (h : x < y) : ¬ y < x := by
  simp only [UInt32.lt_def, BitVec.lt_def] at h ⊢
  omega

theorem u32_lt_irrefl (x : UInt32) : ¬ x < x := by
  simp only [UInt32.lt_def, BitVec.lt_def]
  omega

theorem u32_lt_trans {x y z : UInt32} (h1 : x < y) (h2 : y < z) : x < z := by
  simp only [UInt32.lt_def, BitVec.lt_def] at h1 h2 ⊢
  omega

theorem jsStrLtChars_asymm : ∀ a b, jsStrLtChars a b = true → jsStrLtChars b a = false := by
  intro a
  induction a with
  | nil =>
    intro b h
    cases b with
    | nil => simp [jsStrLtChars] at h
    | cons x xs => simp [jsStrLtChars]
  | cons x xs ih =>
    intro b h
    cases b with
    | nil => simp [jsStrLtChars] at h
    | cons y ys =>
      simp only [jsStrLtChars] at h ⊢
      rcases u32_lt_trichotomy x.val y.val with hlt | hgt | heq
      · rw [if_neg (u32_lt_asymm hlt), if_pos hlt]
      · rw [if_neg (u32_lt_asymm hgt), if_pos hgt] at h
        exact absurd h (by simp)
      · rw [heq] at h ⊢
        rw [if_neg (u32_lt_irrefl _), if_neg (u32_lt_irrefl _)] at h
        rw [if_neg (u32_lt_irrefl _), if_neg (u32_lt_irrefl _)]
        exact ih ys h

theorem jsStrLtChars_trichotomy :
    ∀ a b, jsStrLtChars a b = true ∨ jsStrLtChars b a = true ∨ a = b := by
  intro a
  induction a with
  | nil =>
    intro b
    cases b with
    | nil => right; right; rfl
    | cons y ys => left; simp [jsStrLtChars]
  | cons x xs ih =>
    intro b
    cases b with
    | nil => right; left; simp [jsStrLtChars]
    | cons y ys =>
      simp only [jsStrLtChars]
      rcases u32_lt_trichotomy x.val y.val with hlt | hgt | heq
      · left; rw [if_pos hlt]
      · right; left; rw [if_pos hgt]
      · have hxy : x = y := Char.ext heq
        subst hxy
        rcases ih ys with h | h | h
        · left
          rw [if_neg (u32_lt_irrefl _), if_neg (u32_lt_irrefl _)]
          exact h
        · right; left
          rw [if_neg (u32_lt_irrefl _), if_neg (u32_lt_irrefl _)]
          exact h
        · right; right; rw [h]

theorem jsStrLtChars_trans :
    ∀ a b c, jsStrLtChars a b = true → jsStrLtChars b c = true → jsStrLtChars a c = true := by
  intro a
  induction a with
  | nil =>
    intro b c hab hbc
    cases c with
    | nil =>
      cases b with
      | nil => simp [jsStrLtChars] at hab
      | cons y ys => simp [jsStrLtChars] at hbc
    | cons z zs => simp [jsStrLtChars]
  | cons x xs ih =>
    intro b c hab hbc
    cases b with
    | nil => simp [jsStrLtChars] at hab
    | cons y ys =>
      cases c with
      | nil => simp [jsStrLtChars] at hbc
      | cons z zs =>
        simp only [jsStrLtChars] at hab hbc ⊢
        rcases u32_lt_trichotomy x.val y.val with h1 | h1 | h1
        · rcases u32_lt_trichotomy y.val z.val with h2 | h2 | h2
          · rw [if_pos (u32_lt_trans h1 h2)]
          · rw [if_neg (u32_lt_asymm h2), if_pos h2] at hbc
            exact absurd hbc (by simp)
          · rw [← h2, if_pos h1]
        · rw [if_neg (u32_lt_asymm h1), if_pos h1] at hab
          exact absurd hab (by simp)
        · rcases u32_lt_trichotomy y.val z.val with h2 | h2 | h2
          · rw [h1, if_pos h2]
          · rw [if_neg (u32_lt_asymm h2), if_pos h2] at hbc
            exact absurd hbc (by simp)
          · rw [h1] at hab
            rw [← h2] at hbc
            rw [if_neg (u32_lt_irrefl _), if_neg (u32_lt_irrefl _)] at hab
            rw [if_neg (u32_lt_irrefl _), if_neg (u32_lt_irrefl _)] at hbc
            rw [h1, ← h2]
            rw [if_neg (u32_lt_irrefl _), if_neg (u32_lt_irrefl _)]
            exact ih ys zs hab hbc

instance : IsTotal (String × String) twilioKeyLe := by
  constructor
  intro a b
  unfold twilioKeyLe jsStrLt
  by_cases h : jsStrLtChars b.1.data a.1.data = true
  · right
    exact jsStrLtChars_asymm _ _ h
  · left
    simpa using h

instance : IsTrans (String × String) twilioKeyLe := by
  constructor
  intro a b c hab hbc
  unfold twilioKeyLe jsStrLt at hab hbc ⊢
  by_contra hca
  have hca2 : jsStrLtChars c.1.data a.1.data = true := by simpa using hca
  rcases jsStrLtChars_trichotomy a.1.data b.1.data with h | h | h
  · have h5 := jsStrLtChars_trans _ _ _ hca2 h
    rw [h5] at hbc
    simp at hbc
  · rw [h] at hab
    simp at hab
  · rw [h] at hca2
    rw [hca2] at hbc
    simp at hbc

instance : IsAntisymm (String × String) keyLtP := by
  constructor
  intro a b h1 h2
  unfold keyLtP jsStrLt at h1 h2
  have h3 := jsStrLtChars_asymm _ _ h1
  rw [h3] at h2
  simp at h2

theorem sorted_keyLt {l : List (String × String)}
    (hs : List.Pairwise twilioKeyLe l) (hn : (l.map Prod.fst).Nodup) :
    List.Sorted keyLtP l := by
  have hn2 : List.Pairwise (fun a b => a ≠ b) (l.map Prod.fst) := hn
  have hp : List.Pairwise (fun a b : String × String => a.1 ≠ b.1) l :=
    List.pairwise_map.mp hn2
  exact (hs.and hp).imp (fun {a b} h => by
    rcases jsStrLtChars_trichotomy a.1.data b.1.data with h3 | h3 | h3
    · exact h3
    · exfalso
      have h4 := h.1
      unfold twilioKeyLe jsStrLt at h4
      rw [h3] at h4
      simp at h4
    · exact absurd (String.ext h3) h.2)

theorem sortParams_perm_eq {p1 p2 : List (String × String)}
    (hperm : p1.Perm p2) (hnodup : (p1.map Prod.fst).Nodup) :
    sortParams p1 = sortParams p2 := by
  have hs1 : List.Sorted twilioKeyLe (sortParams p1) :=
    List.sorted_insertionSort twilioKeyLe p1
  have hs2 : List.Sorted twilioKeyLe (sortParams p2) :=
    List.sorted_insertionSort twilioKeyLe p2
  have hp : (sortParams p1).Perm (sortParams p2) :=
    ((List.perm_insertionSort twilioKeyLe p1).trans hperm).trans
      (List.perm_insertionSort twilioKeyLe p2).symm
  have hn1 : ((sortParams p1).map Prod.fst).Nodup :=
    (((List.perm_insertionSort twilioKeyLe p1).map Prod.fst).nodup_iff).mpr hnodup
  have hn2 : ((sortParams p2).map Prod.fst).Nodup :=
    ((hp.symm.trans (List.perm_insertionSort twilioKeyLe p1)).map Prod.fst).nodup_iff.mpr hnodup
  exact List.eq_of_perm_of_sorted hp (sorted_keyLt hs1 hn1) (sorted_keyLt hs2 hn2)

/-- C9 counterexample: the body pairs are sorted by key only, with a stable
sort, so two orderings of a body with the repeated key `a` produce different
HMAC base strings — `"ua1a2"` versus `"ua2a1"` — and `validateTwilioSignature`
accepts a presented signature under one ordering and rejects it under the
other, refuting invariance under arbitrary permutation for bodies with
repeated keys. -/
theorem validate_repeated_key_counterexample :
    ([(("a" : String), ("1" : String)), ("a", "2")]).Perm [("a", "2"), ("a", "1")] ∧
    dataToSign "u" [("a", "1"), ("a", "2")] ≠ dataToSign "u" [("a", "2"), ("a", "1")] ∧
    validateTwilioSignature hmacIdentity "tok" (some "ua1a2") "u"
      [("a", "1"), ("a", "2")] = true ∧
    validateTwilioSignature hmacIdentity "tok" (some "ua1a2") "u"
      [("a", "2"), ("a", "1")] = false := by
  refine ⟨by decide, by decide, by decide, by decide⟩

/-- C9 (amended): webhook signature verification is invariant under
reordering of the form body whenever the body has no repeated keys: for every
HMAC function, auth token, presented signature, URL, and any permutation of a
body whose keys are pairwise distinct, `validateTwilioSignature` returns an
identical result, because the key-sorted pair list (hence the HMAC base
string) is identical.  (With repeated keys the sort is stable by key only, so
only order among equal-key pairs matters; see the counterexample.) -/
theorem validate_body_order_invariant (hmac : String → String → String) (token : String)
    (sig : Option String) (url : String) (p1 p2 : List (String × String))
    (hperm : p1.Perm p2) (hnodup : (p1.map Prod.fst).Nodup) :
    validateTwilioSignature hmac token sig url p1 =
      validateTwilioSignature hmac token sig url p2 := by
  unfold validateTwilioSignature dataToSign
  rw [sortParams_perm_eq hperm hnodup]

/-- Witness for C9 at a two-pair body with distinct keys. -/
theorem validate_body_order_invariant_witness :
    validateTwilioSignature hmacIdentity "t" (some "x") "u" [("b", "2"), ("a", "1")] =
      validateTwilioSignature hmacIdentity "t" (some "x") "u" [("a", "1"), ("b", "2")] :=
  validate_body_order_invariant hmacIdentity "t" (some "x") "u"
    [("b", "2"), ("a", "1")] [("a", "1"), ("b", "2")] (by decide) (by decide)

/-! ## Helper lemmas: association-list maps -/

theorem any_key_iff {κ α : Type} [DecidableEq κ] (l : List (κ × α)) (k : κ) :
    l.any (fun kv => decide (kv.1 = k)) = true ↔ k ∈ mapKeys l := by
  simp [mapKeys, List.any_eq_true, List.mem_map]

theorem map_untouched {κ α : Type} [DecidableEq κ] {l : List (κ × α)} {k : κ} (v : α)
    (h : ∀ kv ∈ l, kv.1 ≠ k) :
    l.map (fun kv => if kv.1 = k then (k, v) else kv) = l := by
  induction l with
  | nil => rfl
  | cons kv rest ih =>
    have hk : kv.1 ≠ k := h kv (by simp)
    simp only [List.map_cons, if_neg hk]
    rw [ih (fun x hx => h x (by simp [hx]))]

theorem mapSet_of_not_mem {κ α : Type} [DecidableEq κ] {l : List (κ × α)} {k : κ} (v : α)
    (h : k ∉ mapKeys l) : mapSet l k v = l ++ [(k, v)] := by
  unfold mapSet
  rw [if_neg]
  intro hc
  exact h ((any_key_iff l k).mp hc)

theorem mapKeys_mapSet_of_mem {κ α : Type} [DecidableEq κ] {l : List (κ × α)} {k : κ} (v : α)
    (h : k ∈ mapKeys l) : mapKeys (mapSet l k v) = mapKeys l := by
  unfold mapSet
  rw [if_pos ((any_key_iff l k).mpr h)]
  unfold mapKeys
  rw [List.map_map]
  apply List.map_congr_left
  intro kv _
  by_cases hk : kv.1 = k
  · simp [hk]
  · simp [hk]

theorem length_mapSet_of_mem {κ α : Type} [DecidableEq κ] {l : List (κ × α)} {k : κ} (v : α)
    (h : k ∈ mapKeys l) : (mapSet l k v).length = l.length := by
  unfold mapSet
  rw [if_pos ((any_key_iff l k).mpr h)]
  exact List.length_map _ _

theorem mem_mapSet_elim {κ α : Type} [DecidableEq κ] {l : List (κ × α)} {k : κ} {v : α}
    {kv : κ × α} (h : kv ∈ mapSet l k v) : kv ∈ l ∨ kv = (k, v) := by
  unfold mapSet at h
  split at h
  · rw [List.mem_map] at h
    rcases h with ⟨kv0, hm, heq⟩
    by_cases hk : kv0.1 = k
    · right
      rw [if_pos hk] at heq
      exact heq.symm
    · left
      rw [if_neg hk] at heq
      exact heq ▸ hm
  · rw [List.mem_append] at h
    rcases h with h | h
    · left; exact h
    · right; simpa using h

theorem mapKeys_mapDelete {κ α : Type} [DecidableEq κ] (l : List (κ × α)) (k : κ) :
    mapKeys (mapDelete l k) = (mapKeys l).filter (fun x => decide (x ≠ k)) := by
  induction l with
  | nil => rfl
  | cons kv rest ih =>
    unfold mapDelete mapKeys at ih ⊢
    by_cases hk : kv.1 = k
    · simp [hk] at ih ⊢
      exact ih
    · simp [hk] at ih ⊢
      exact ih

theorem mem_mapDelete_elim {κ α : Type} [DecidableEq κ] {l : List (κ × α)} {k : κ}
    {kv : κ × α} (h : kv ∈ mapDelete l k) : kv ∈ l ∧ kv.1 ≠ k := by
  unfold mapDelete at h
  refine ⟨List.mem_of_mem_filter h, ?_⟩
  have h2 := List.of_mem_filter h
  simpa using h2

theorem length_mapDelete_le {κ α : Type} [DecidableEq κ] (l : List (κ × α)) (k : κ) :
    (mapDelete l k).length ≤ l.length :=
  List.length_filter_le _ _

theorem filter_map_untouched {κ α : Type} [DecidableEq κ] (l : List (κ × α)) (k : κ) (v : α) :
    List.filter (fun kv => decide (kv.1 ≠ k))
        (l.map (fun kv => if kv.1 = k then (k, v) else kv)) =
      List.filter (fun kv => decide (kv.1 ≠ k)) l := by
  induction l with
  | nil => rfl
  | cons kv rest ih =>
    by_cases hk : kv.1 = k
    · simp only [List.map_cons, if_pos hk, List.filter_cons]
      rw [ih]
      have h1 : (decide ((k, v).1 ≠ k)) = false := by simp
      have h2 : (decide (kv.1 ≠ k)) = false := by simp [hk]
      rw [h1, h2]
      simp
    · simp only [List.map_cons, if_neg hk, List.filter_cons]
      rw [ih]

theorem mapDelete_mapSet_self {κ α : Type} [DecidableEq κ] (l : List (κ × α)) (k : κ) (v : α) :
    mapDelete (mapSet l k v) k = mapDelete l k := by
  unfold mapSet
  split
  · exact filter_map_untouched l k v
  · unfold mapDelete
    rw [List.filter_append]
    have hone : List.filter (fun kv => decide (kv.1 ≠ k)) [(k, v)] = [] := by
      simp
    rw [hone, List.append_nil]

theorem mapDelete_of_not_mem {κ α : Type} [DecidableEq κ] {l : List (κ × α)} {k : κ}
    (h : k ∉ mapKeys l) : mapDelete l k = l := by
  unfold mapDelete
  apply List.filter_eq_self.mpr
  intro kv hm
  simp only [decide_eq_true_eq]
  intro hk
  exact h (hk ▸ List.mem_map_of_mem (fun x => x.1) hm)

theorem mapGet_mem {κ α : Type} [DecidableEq κ] {l : List (κ × α)} {k : κ} {v : α}
    (h : mapGet l k = some v) : (k, v) ∈ l := by
  unfold mapGet at h
  rcases hf : l.find? (fun kv => decide (kv.1 = k)) with _ | kv
  · rw [hf] at h; simp at h
  · rw [hf] at h
    simp at h
    have hm := List.mem_of_find?_eq_some hf
    have hp := List.find?_some hf
    simp only [decide_eq_true_eq] at hp
    have heq : kv = (k, v) := by
      cases kv
      simp_all
    exact heq ▸ hm

theorem mapSet_append_self {κ α : Type} [DecidableEq κ] {l : List (κ × α)} {k : κ}
    (v0 v : α) (h : k ∉ mapKeys l) : mapSet (l ++ [(k, v0)]) k v = l ++ [(k, v)] := by
  unfold mapSet
  rw [if_pos]
  · rw [List.map_append]
    have hne : ∀ kv ∈ l, kv.1 ≠ k := by
      intro kv hm he
      exact h (he ▸ List.mem_map_of_mem (fun x => x.1) hm)
    rw [map_untouched v hne]
    simp
  · rw [any_key_iff]
    unfold mapKeys
    simp


/-! ## Helper lemmas: media-stream session table -/

theorem nodup_callIds_mapSet {l : List (String × StreamSession)} {k : String}
    {v : StreamSession}
    (hkeys : (mapKeys l).Nodup) (hvals : (l.map (fun kv => kv.2.callId)).Nodup)
    (hfresh : ∀ kv ∈ l, kv.2.callId ≠ v.callId) :
    ((mapSet l k v).map (fun kv => kv.2.callId)).Nodup := by
  by_cases hm : k ∈ mapKeys l
  · unfold mapSet
    rw [if_pos ((any_key_iff l k).mpr hm)]
    rw [List.map_map]
    have hP : List.Pairwise (fun a b : String × StreamSession => a.1 ≠ b.1) l :=
      List.pairwise_map.mp hkeys
    have hQ : List.Pairwise (fun a b : String × StreamSession => a.2.callId ≠ b.2.callId) l :=
      List.pairwise_map.mp hvals
    have hPQ := hP.and hQ
    show List.Pairwise _ _
    rw [List.pairwise_map]
    refine hPQ.imp_of_mem ?_
    intro a b ha hb hab
    by_cases hak : a.1 = k
    · by_cases hbk : b.1 = k
      · exact absurd (hak.trans hbk.symm) hab.1
      · simp only [Function.comp, if_pos hak, if_neg hbk]
        exact fun he => hfresh b hb (by rw [← he])
    · by_cases hbk : b.1 = k
      · simp only [Function.comp, if_neg hak, if_pos hbk]
        exact fun he => hfresh a ha (by rw [he])
      · simp only [Function.comp, if_neg hak, if_neg hbk]
        exact hab.2
  · rw [mapSet_of_not_mem v hm, List.map_append]
    simp only [List.map_cons, List.map_nil]
    rw [List.nodup_append]
    refine ⟨hvals, by simp, ?_⟩
    intro x hx
    simp only [List.mem_singleton]
    rw [List.mem_map] at hx
    rcases hx with ⟨kv, hkv, hxe⟩
    intro he
    exact hfresh kv hkv (by rw [hxe, he])

theorem streamStep_inv (st : HandlerState) (msg : StreamMsg)
    (h1 : (mapKeys st.sessions).Nodup) (h2 : (sessionCallIds st).Nodup) :
    (mapKeys (streamStep st msg).sessions).Nodup ∧
      (sessionCallIds (streamStep st msg)).Nodup := by
  cases msg with
  | start w sid csid =>
    unfold streamStep handleStart
    dsimp only
    by_cases hdup : st.sessions.any (fun kv => decide (kv.2.callId = csid))
    · rw [if_pos hdup]
      exact ⟨h1, h2⟩
    · rw [if_neg hdup]
      dsimp only
      have hfresh : ∀ kv ∈ st.sessions, kv.2.callId ≠ csid := by
        intro kv hm he
        exact hdup (List.any_eq_true.mpr ⟨kv, hm, by simp [he]⟩)
      constructor
      · by_cases hm : sid ∈ mapKeys st.sessions
        · rw [mapKeys_mapSet_of_mem _ hm]
          exact h1
        · rw [mapSet_of_not_mem _ hm]
          unfold mapKeys
          rw [List.map_append]
          rw [List.nodup_append]
          refine ⟨h1, by simp, ?_⟩
          intro x hx
          simp only [List.map_cons, List.map_nil, List.mem_singleton]
          intro he
          exact hm (he ▸ hx)
      · exact nodup_callIds_mapSet h1 h2 hfresh
  | stopMsg w =>
    unfold streamStep
    dsimp only
    cases hg : mapGet st.connSession w with
    | none => exact ⟨h1, h2⟩
    | some sess =>
      unfold handleStop
      constructor
      · rw [mapKeys_mapDelete]
        exact h1.filter _
      · unfold sessionCallIds mapDelete
        exact h2.sublist (List.Sublist.map _ (List.filter_sublist _))

theorem streamRun_inv (msgs : List StreamMsg) :
    ∀ st, (mapKeys st.sessions).Nodup → (sessionCallIds st).Nodup →
      (mapKeys (streamRun st msgs).sessions).Nodup ∧
        (sessionCallIds (streamRun st msgs)).Nodup := by
  induction msgs with
  | nil => intro st h1 h2; exact ⟨h1, h2⟩
  | cons msg rest ih =>
    intro st h1 h2
    have hstep := streamStep_inv st msg h1 h2
    exact ih (streamStep st msg) hstep.1 hstep.2

/-- C6: across every sequence of carrier media-stream messages, at most one
stream session (hence at most one model session, as each live session owns
exactly one) exists per `providerCallId` — the live session call ids are
always pairwise distinct; and a `start` whose `callSid` matches an existing
session closes the new socket, creates no model session, and leaves the
session table unchanged (first connection wins). -/
theorem duplicate_stream_first_wins :
    (∀ msgs, (sessionCallIds (streamRun initialHandler msgs)).Nodup) ∧
    (∀ st w sid csid, (∃ kv ∈ st.sessions, kv.2.callId = csid) →
      handleStart st w sid csid =
        ({ st with closedWs := st.closedWs ++ [w] }, none)) := by
  constructor
  · intro msgs
    exact (streamRun_inv msgs initialHandler (by simp [initialHandler, mapKeys])
      (by simp [initialHandler, sessionCallIds])).2
  · intro st w sid csid hex
    unfold handleStart
    rw [if_pos]
    rw [List.any_eq_true]
    rcases hex with ⟨kv, hm, he⟩
    exact ⟨kv, hm, by simp [he]⟩

/-- Witness for C6: a second upgrade for provider call `CA1` is closed and
creates nothing. -/
theorem duplicate_stream_first_wins_witness :
    handleStart streamDemoState 2 "S2" "CA1" =
      ({ streamDemoState with closedWs := streamDemoState.closedWs ++ [2] }, none) :=
  duplicate_stream_first_wins.2 streamDemoState 2 "S2" "CA1" (by decide)

/-- C2 (code bug): when the max-duration timer fires for an answered call
and the REST hangup succeeds, the timer body first sets
`endReason = "timeout"` (matching the spec), but `endCall` then overwrites it
unconditionally with `"hangup-bot"`; the record the completion callback
receives (and the final journal line) therefore carries
`endReason = "hangup-bot"`, not `"timeout"`.  The REST hangup is issued and
the callback fires exactly once, as the claim says. -/
theorem timer_endReason_overwritten :
    (timerFire timerDemoState "c1" 1000 true).hangupsIssued = [("PA", "hangup-bot")] ∧
    (timerFire timerDemoState "c1" 1000 true).completions.map
      (fun c => c.endReason) = [some "hangup-bot"] ∧
    (timerFire timerDemoState "c1" 1000 true).completions.map
      (fun c => c.state) = [CallState.hangupBot] ∧
    (timerFire timerDemoState "c1" 1000 true).evicted.map
      (fun ev => ev.1.endReason) = [some "hangup-bot"] ∧
    some "hangup-bot" ≠ (some "timeout" : Option String) := by
  refine ⟨by decide, by decide, by decide, by decide, by decide⟩

/-! ## Helper lemmas: the manager invariant -/

theorem transitionState_nonterminal :
    ∀ s t, TerminalStates s = false → TerminalStates t = false →
      TerminalStates (transitionState s t) = false := by decide

theorem mgrInv_transfer {cfg : Config} {m m2 : ManagerState} (h : MgrInv cfg m)
    (ha : m2.activeCalls = m.activeCalls) (hc : m2.completions = m.completions)
    (he : m2.evicted = m.evicted) : MgrInv cfg m2 := by
  refine ⟨?_, ?_, ?_, ?_, ?_, ?_, ?_⟩
  · unfold activeKeys; rw [ha]; exact h.keysNodup
  · rw [ha]; exact h.keyCoherent
  · rw [ha]; exact h.activeNonTerminal
  · rw [ha]; exact h.capLe
  · unfold evictedIds; rw [he]; exact h.evictedNodup
  · unfold activeKeys evictedIds; rw [ha, he]; exact h.disjointIds
  · rw [hc, he]; exact h.completionsEq

theorem scanPid_mem {m : ManagerState} {pid : String} {k : String} {c : CallRecord}
    (h : scanPid m pid = some (k, c)) : (k, c) ∈ m.activeCalls :=
  List.mem_of_find?_eq_some h

theorem findCall_mem {m : ManagerState} {x k : String} {c : CallRecord}
    (h : findCall m x = some (k, c)) : (k, c) ∈ m.activeCalls := by
  unfold findCall at h
  cases hg : mapGet m.activeCalls x with
  | some c0 =>
    rw [hg] at h
    dsimp only at h
    injection h with h2
    injection h2 with h3 h4
    rw [← h3, ← h4]
    exact mapGet_mem hg
  | none =>
    rw [hg] at h
    dsimp only at h
    cases hp : mapGet m.providerCallIdMap x with
    | some cid =>
      rw [hp] at h
      dsimp only at h
      by_cases hcid : cid = ""
      · rw [if_pos hcid] at h
        exact scanPid_mem h
      · rw [if_neg hcid] at h
        cases hg2 : mapGet m.activeCalls cid with
        | none => rw [hg2] at h; simp at h
        | some c2 =>
          rw [hg2] at h
          have hmm : Option.map (fun c => (cid, c)) (some c2) = some (cid, c2) := rfl
          rw [hmm] at h
          injection h with h2
          injection h2 with h3 h4
          rw [← h3, ← h4]
          exact mapGet_mem hg2
    | none =>
      rw [hp] at h
      dsimp only at h
      exact scanPid_mem h

theorem mgrInv_save {cfg : Config} {m m2 : ManagerState} {k : String} {c0 c : CallRecord}
    (h : MgrInv cfg m) (hmem : (k, c0) ∈ m.activeCalls)
    (ha : m2.activeCalls = mapSet m.activeCalls k c)
    (hc : m2.completions = m.completions) (he : m2.evicted = m.evicted)
    (hid : c.callId = c0.callId) (hst : TerminalStates c.state = false) :
    MgrInv cfg m2 := by
  have hkmem : k ∈ mapKeys m.activeCalls := List.mem_map_of_mem (fun kv => kv.1) hmem
  have hck : c.callId = k := by rw [hid]; exact h.keyCoherent (k, c0) hmem
  refine ⟨?_, ?_, ?_, ?_, ?_, ?_, ?_⟩
  · unfold activeKeys
    rw [ha, mapKeys_mapSet_of_mem c hkmem]
    exact h.keysNodup
  · rw [ha]
    intro kv hm
    rcases mem_mapSet_elim hm with hin | heq
    · exact h.keyCoherent kv hin
    · rw [heq]; exact hck
  · rw [ha]
    intro kv hm
    rcases mem_mapSet_elim hm with hin | heq
    · exact h.activeNonTerminal kv hin
    · rw [heq]; exact hst
  · rw [ha, length_mapSet_of_mem c hkmem]
    exact h.capLe
  · unfold evictedIds; rw [he]; exact h.evictedNodup
  · unfold activeKeys evictedIds
    rw [ha, he, mapKeys_mapSet_of_mem c hkmem]
    exact h.disjointIds
  · rw [hc, he]; exact h.completionsEq

theorem mgrInv_evict {cfg : Config} {m m2 : ManagerState} {k : String} {c0 c : CallRecord}
    (path : EvictPath) (h : MgrInv cfg m) (hmem : (k, c0) ∈ m.activeCalls)
    (ha : m2.activeCalls = mapDelete (mapSet m.activeCalls k c) c.callId)
    (hc : m2.completions = m.completions ++ (if firesCallback path then [c] else []))
    (he : m2.evicted = m.evicted ++ [(c, path)])
    (hid : c.callId = c0.callId) :
    MgrInv cfg m2 := by
  have hkmem : k ∈ mapKeys m.activeCalls := List.mem_map_of_mem (fun kv => kv.1) hmem
  have hck : c.callId = k := by rw [hid]; exact h.keyCoherent (k, c0) hmem
  have ha2 : m2.activeCalls = mapDelete m.activeCalls k := by
    rw [ha, hck, mapDelete_mapSet_self]
  have hknotev : k ∉ evictedIds m := h.disjointIds k hkmem
  refine ⟨?_, ?_, ?_, ?_, ?_, ?_, ?_⟩
  · unfold activeKeys
    rw [ha2, mapKeys_mapDelete]
    exact h.keysNodup.filter _
  · rw [ha2]
    intro kv hm
    exact h.keyCoherent kv (mem_mapDelete_elim hm).1
  · rw [ha2]
    intro kv hm
    exact h.activeNonTerminal kv (mem_mapDelete_elim hm).1
  · rw [ha2]
    exact le_trans (length_mapDelete_le _ _) h.capLe
  · unfold evictedIds
    rw [he, List.map_append]
    rw [List.nodup_append]
    refine ⟨h.evictedNodup, by simp, ?_⟩
    intro x hx
    simp only [List.map_cons, List.map_nil, List.mem_singleton]
    intro hxe
    rw [hxe, hck] at hx
    exact hknotev hx
  · unfold activeKeys evictedIds
    rw [ha2, he, mapKeys_mapDelete, List.map_append]
    intro x hx
    have hx2 := List.mem_filter.mp hx
    have hxk : x ≠ k := by simpa using hx2.2
    rw [List.mem_append]
    rintro (hin | hin)
    · exact h.disjointIds x hx2.1 hin
    · simp only [List.map_cons, List.map_nil, List.mem_singleton] at hin
      rw [hin, hck] at hxk
      exact hxk rfl
  · rw [hc, he, List.filter_append, List.map_append, h.completionsEq]
    congr 1
    cases hfp : firesCallback path
    · simp [hfp]
    · simp [hfp]

theorem mgrInv_save2 {cfg : Config} {m : ManagerState} {k : String} {c0 c : CallRecord}
    (h : MgrInv cfg m) (hmem : (k, c0) ∈ m.activeCalls)
    (hid : c.callId = c0.callId) (hst : TerminalStates c.state = false) :
    MgrInv cfg { m with activeCalls := mapSet m.activeCalls k c } :=
  @mgrInv_save cfg m { m with activeCalls := mapSet m.activeCalls k c } k c0 c
    h hmem rfl rfl rfl hid hst

theorem mgrInv_save3 {cfg : Config} {m : ManagerState} {k : String} {c0 c : CallRecord}
    (tmrs : List String) (h : MgrInv cfg m) (hmem : (k, c0) ∈ m.activeCalls)
    (hid : c.callId = c0.callId) (hst : TerminalStates c.state = false) :
    MgrInv cfg { m with activeCalls := mapSet m.activeCalls k c, timers := tmrs } :=
  @mgrInv_transfer cfg { m with activeCalls := mapSet m.activeCalls k c }
    { m with activeCalls := mapSet m.activeCalls k c, timers := tmrs }
    (mgrInv_save2 h hmem hid hst) rfl rfl rfl

theorem mgrInv_evict_fire {cfg : Config} {m : ManagerState} {k : String} {c0 c : CallRecord}
    (path : EvictPath) (pmap : List (String × String)) (tmrs : List String)
    (h : MgrInv cfg m) (hmem : (k, c0) ∈ m.activeCalls)
    (hid : c.callId = c0.callId) (hfire : firesCallback path = true) :
    MgrInv cfg { m with activeCalls := mapDelete (mapSet m.activeCalls k c) c.callId,
                        providerCallIdMap := pmap, timers := tmrs,
                        completions := m.completions ++ [c],
                        evicted := m.evicted ++ [(c, path)] } :=
  @mgrInv_evict cfg m
    { m with activeCalls := mapDelete (mapSet m.activeCalls k c) c.callId,
             providerCallIdMap := pmap, timers := tmrs,
             completions := m.completions ++ [c],
             evicted := m.evicted ++ [(c, path)] } k c0 c path
    h hmem rfl (by rw [hfire]; simp) rfl hid

theorem mgrInv_evict_nofire {cfg : Config} {m : ManagerState} {k : String} {c0 c : CallRecord}
    (path : EvictPath) (pmap : List (String × String)) (tmrs : List String)
    (h : MgrInv cfg m) (hmem : (k, c0) ∈ m.activeCalls)
    (hid : c.callId = c0.callId) (hfire : firesCallback path = false) :
    MgrInv cfg { m with activeCalls := mapDelete (mapSet m.activeCalls k c) c.callId,
                        providerCallIdMap := pmap, timers := tmrs,
                        evicted := m.evicted ++ [(c, path)] } :=
  @mgrInv_evict cfg m
    { m with activeCalls := mapDelete (mapSet m.activeCalls k c) c.callId,
             providerCallIdMap := pmap, timers := tmrs,
             evicted := m.evicted ++ [(c, path)] } k c0 c path
    h hmem rfl (by rw [hfire]; simp) rfl hid

theorem rebind_state (m : ManagerState) (c : CallRecord) (e : NormalizedEvent) :
    (rebindProviderId m c e).2.state = c.state := by
  unfold rebindProviderId
  rcases e.providerCallId with _ | p
  · rfl
  · dsimp only
    split
    · rcases c.providerCallId with _ | q
      · rfl
      · dsimp only
        split
        · rfl
        · rfl
    · rfl

theorem mgrInv_processEvent {cfg : Config} {m : ManagerState} (e : NormalizedEvent) (now : Nat)
    (h : MgrInv cfg m) : MgrInv cfg (processEvent m e now) := by
  unfold processEvent
  dsimp only
  split
  · exact h
  · split
    · exact mgrInv_transfer h rfl rfl rfl
    · rename_i k c0 hf
      have h1 : MgrInv cfg { m with processedEventIds := m.processedEventIds ++ [e.id] } :=
        mgrInv_transfer h rfl rfl rfl
      have hmem : (k, c0) ∈ m.activeCalls := findCall_mem hf
      obtain ⟨hra, hrp, hrc, hre, hrt, hrh, hrs⟩ :=
        rebind_fst { m with processedEventIds := m.processedEventIds ++ [e.id] } c0 e
      have h2 : MgrInv cfg
          (rebindProviderId { m with processedEventIds := m.processedEventIds ++ [e.id] } c0 e).1 :=
        mgrInv_transfer h1 hra hrc hre
      have hmem2 : (k, c0) ∈
          (rebindProviderId { m with processedEventIds := m.processedEventIds ++ [e.id] } c0 e).1.activeCalls := by
        rw [hra]; exact hmem
      have hcid :
          (rebindProviderId { m with processedEventIds := m.processedEventIds ++ [e.id] } c0 e).2.callId
            = c0.callId :=
        rebind_callId _ c0 e
      have hstate :
          (rebindProviderId { m with processedEventIds := m.processedEventIds ++ [e.id] } c0 e).2.state
            = c0.state :=
        rebind_state _ c0 e
      have hc0nt : TerminalStates c0.state = false := h.activeNonTerminal (k, c0) hmem
      cases e.etype with
      | initiated =>
        apply mgrInv_save2 h2 hmem2
        · exact hcid
        · exact transitionState_nonterminal _ _ (hstate ▸ hc0nt) (by decide)
      | ringing =>
        apply mgrInv_save2 h2 hmem2
        · exact hcid
        · exact transitionState_nonterminal _ _ (hstate ▸ hc0nt) (by decide)
      | answered =>
        apply mgrInv_save3 _ h2 hmem2
        · exact hcid
        · exact transitionState_nonterminal _ _ (hstate ▸ hc0nt) (by decide)
      | active =>
        apply mgrInv_save2 h2 hmem2
        · exact hcid
        · exact transitionState_nonterminal _ _ (hstate ▸ hc0nt) (by decide)
      | speaking =>
        apply mgrInv_save2 h2 hmem2
        · exact hcid
        · exact transitionState_nonterminal _ _ (hstate ▸ hc0nt) (by decide)
      | speech t isFinal =>
        cases isFinal with
        | true =>
          apply mgrInv_save2 h2 hmem2
          · exact hcid
          · exact transitionState_nonterminal _ _ (hstate ▸ hc0nt) (by decide)
        | false =>
          apply mgrInv_save2 h2 hmem2
          · exact hcid
          · exact transitionState_nonterminal _ _ (hstate ▸ hc0nt) (by decide)
      | ended reason =>
        apply mgrInv_evict_fire .endedEvent _ _ h2 hmem2
        · exact hcid
        · decide
      | errorEvt msg retryable =>
        cases retryable with
        | true =>
          apply mgrInv_save2 h2 hmem2
          · exact hcid
          · exact hstate ▸ hc0nt
        | false =>
          apply mgrInv_evict_nofire .errorEvent _ _ h2 hmem2
          · exact hcid
          · decide
      | dtmf digits =>
        apply mgrInv_save2 h2 hmem2
        · exact hcid
        · exact hstate ▸ hc0nt

theorem mgrInv_endCall {cfg : Config} {m : ManagerState} (callId : String) (now : Nat)
    (ok : Bool) (h : MgrInv cfg m) : MgrInv cfg (endCall m callId now ok).1 := by
  unfold endCall
  dsimp only
  cases hg : mapGet m.activeCalls callId with
  | none => exact h
  | some call =>
    have hmem : (callId, call) ∈ m.activeCalls := mapGet_mem hg
    dsimp only
    cases hp : call.providerCallId with
    | none => exact h
    | some pid =>
      dsimp only
      by_cases hpe : pid = ""
      · rw [if_pos hpe]; exact h
      · rw [if_neg hpe]
        by_cases ht : TerminalStates call.state
        · rw [if_pos ht]; exact h
        · rw [if_neg ht]
          cases ok with
          | false =>
            exact mgrInv_transfer h rfl rfl rfl
          | true =>
            have h1 : MgrInv cfg { m with hangupsIssued := m.hangupsIssued ++ [(pid, "hangup-bot")] } :=
              mgrInv_transfer h rfl rfl rfl
            have hck : call.callId = callId := h.keyCoherent (callId, call) hmem
            have hmem1 : (call.callId, call) ∈
                ({ m with hangupsIssued := m.hangupsIssued ++ [(pid, "hangup-bot")] } : ManagerState).activeCalls := by
              rw [hck]; exact hmem
            rw [if_pos rfl]
            dsimp only
            simp only [saveCall]
            rw [← hck]
            apply mgrInv_evict_fire .endCallHangup _ _ h1 hmem1
            · exact rfl
            · decide

theorem mgrInv_timerFire {cfg : Config} {m : ManagerState} (callId : String) (now : Nat)
    (ok : Bool) (h : MgrInv cfg m) : MgrInv cfg (timerFire m callId now ok) := by
  unfold timerFire
  dsimp only
  have h1 : MgrInv cfg { m with timers := m.timers.erase callId } :=
    mgrInv_transfer h rfl rfl rfl
  cases hg : mapGet ({ m with timers := m.timers.erase callId } : ManagerState).activeCalls callId with
  | none => exact h1
  | some call =>
    dsimp only
    by_cases ht : TerminalStates call.state
    · rw [if_pos ht]; exact h1
    · rw [if_neg ht]
      have hmem : (callId, call) ∈ m.activeCalls := mapGet_mem hg
      have hsave : MgrInv cfg
          (saveCall { m with timers := m.timers.erase callId } callId
            { call with endReason := some "timeout" }) := by
        apply mgrInv_save2 h1 hmem
        · exact rfl
        · simpa using ht
      exact mgrInv_endCall callId now ok hsave

theorem mgrInv_initiateCall {cfg : Config} {m : ManagerState} (p : InitiateParams)
    (h : MgrInv cfg m)
    (hfA : p.newCallId ∉ activeKeys m) (hfE : p.newCallId ∉ evictedIds m) :
    MgrInv cfg (initiateCall cfg m p).1 := by
  unfold initiateCall
  by_cases hpre : p.preflightOk
  · rw [if_neg (by simpa using hpre)]
    by_cases hcap : cfg.maxConcurrentCalls ≤ m.activeCalls.length
    · rw [if_pos hcap]; exact h
    · rw [if_neg hcap]
      cases cfg.fromNumber with
      | none => exact h
      | some fromNum =>
        dsimp only
        cases p.restResult with
        | some pid =>
          dsimp only
          rw [mapSet_of_not_mem _ hfA, mapSet_append_self _ _ hfA]
          refine ⟨?_, ?_, ?_, ?_, ?_, ?_, ?_⟩
          · unfold activeKeys mapKeys
            rw [List.map_append]
            rw [List.nodup_append]
            refine ⟨h.keysNodup, by simp, ?_⟩
            intro x hx
            simp only [List.map_cons, List.map_nil, List.mem_singleton]
            intro he
            exact hfA (he ▸ hx)
          · intro kv hm
            rw [List.mem_append] at hm
            rcases hm with hm | hm
            · exact h.keyCoherent kv hm
            · simp only [List.mem_singleton] at hm
              rw [hm]
          · intro kv hm
            rw [List.mem_append] at hm
            rcases hm with hm | hm
            · exact h.activeNonTerminal kv hm
            · simp only [List.mem_singleton] at hm
              rw [hm]
              rfl
          · rw [List.length_append]
            simp only [List.length_cons, List.length_nil]
            omega
          · exact h.evictedNodup
          · unfold activeKeys mapKeys
            rw [List.map_append]
            intro x hx
            rw [List.mem_append] at hx
            rcases hx with hx | hx
            · exact h.disjointIds x hx
            · simp only [List.map_cons, List.map_nil, List.mem_singleton] at hx
              rw [hx]
              exact hfE
          · exact h.completionsEq
        | none =>
          dsimp only
          rw [mapSet_of_not_mem _ hfA, mapSet_append_self _ _ hfA]
          have hdel : mapDelete (m.activeCalls ++
              [(p.newCallId,
                { callId := p.newCallId, providerCallId := none, state := .failed,
                  fromNum := fromNum, toNum := p.toNum, sessionKey := p.sessionKey,
                  startedAt := p.now, answeredAt := none, endedAt := some p.now,
                  endReason := some "failed", transcript := [], processedEventIds := [],
                  initialMessage := p.message } )]) p.newCallId = m.activeCalls := by
            unfold mapDelete
            rw [List.filter_append]
            have h1 : List.filter
                (fun kv => decide (kv.1 ≠ p.newCallId)) m.activeCalls = m.activeCalls := by
              apply List.filter_eq_self.mpr
              intro kv hm
              simp only [decide_eq_true_eq]
              intro he
              exact hfA (he ▸ List.mem_map_of_mem (fun x => x.1) hm)
            rw [h1]
            simp
          rw [hdel]
          refine ⟨?_, ?_, ?_, ?_, ?_, ?_, ?_⟩
          · exact h.keysNodup
          · exact h.keyCoherent
          · exact h.activeNonTerminal
          · exact h.capLe
          · unfold evictedIds
            rw [List.map_append]
            rw [List.nodup_append]
            refine ⟨h.evictedNodup, by simp, ?_⟩
            intro x hx
            simp only [List.map_cons, List.map_nil, List.mem_singleton]
            intro he
            rw [he] at hx
            exact hfE hx
          · unfold evictedIds
            intro x hx
            rw [List.map_append, List.mem_append]
            rintro (hin | hin)
            · exact h.disjointIds x hx hin
            · simp only [List.map_cons, List.map_nil, List.mem_singleton] at hin
              rw [hin] at hx
              exact hfA hx
          · rw [List.filter_append, List.map_append, h.completionsEq]
            simp [firesCallback]
  · rw [if_pos (by simpa using hpre)]
    exact h

theorem mgrInv_applyOp {cfg : Config} {m : ManagerState} (op : Op)
    (h : MgrInv cfg m) (hfresh : opFresh m op = true) :
    MgrInv cfg (applyOp cfg m op) := by
  cases op with
  | webhookEvent e now => exact mgrInv_processEvent e now h
  | hangup callId now ok => exact mgrInv_endCall callId now ok h
  | timerExpiry callId now ok => exact mgrInv_timerFire callId now ok h
  | dial p =>
    unfold opFresh at hfresh
    dsimp only at hfresh
    have h1 : m.activeCalls.any (fun kv => decide (kv.1 = p.newCallId)) = false := by
      cases hA : m.activeCalls.any (fun kv => decide (kv.1 = p.newCallId))
      · rfl
      · rw [hA] at hfresh; simp at hfresh
    have h2 : m.evicted.any (fun ev => decide (ev.1.callId = p.newCallId)) = false := by
      cases hE : m.evicted.any (fun ev => decide (ev.1.callId = p.newCallId))
      · rfl
      · rw [hE] at hfresh; simp at hfresh
    have hfA : p.newCallId ∉ activeKeys m := by
      intro hx
      unfold activeKeys at hx
      rw [← any_key_iff] at hx
      rw [h1] at hx
      exact Bool.false_ne_true hx
    have hfE : p.newCallId ∉ evictedIds m := by
      intro hx
      unfold evictedIds at hx
      rw [List.mem_map] at hx
      rcases hx with ⟨ev, hm, he⟩
      have h3 : m.evicted.any (fun ev => decide (ev.1.callId = p.newCallId)) = true :=
        List.any_eq_true.mpr ⟨ev, hm, by simp [he]⟩
      rw [h2] at h3
      exact Bool.false_ne_true h3
    exact mgrInv_initiateCall p h hfA hfE

theorem mgrInv_run {cfg : Config} (ops : List Op) :
    ∀ m, MgrInv cfg m → freshRun cfg m ops = true → MgrInv cfg (run cfg m ops) := by
  induction ops with
  | nil => intro m h _; exact h
  | cons op rest ih =>
    intro m h hfresh
    unfold freshRun at hfresh
    rw [Bool.and_eq_true] at hfresh
    exact ih (applyOp cfg m op) (mgrInv_applyOp op h hfresh.1) hfresh.2

theorem mgrInv_initial (cfg : Config) : MgrInv cfg initialState := by
  refine ⟨?_, ?_, ?_, ?_, ?_, ?_, ?_⟩ <;>
    simp [initialState, activeKeys, evictedIds, mapKeys]

theorem countP_unique {α β : Type} [DecidableEq β] (g : α → β) (p : α → Bool) :
    ∀ (l : List α) (y : α), (l.map g).Nodup → y ∈ l →
      l.countP (fun a => p a && decide (g a = g y)) = if p y then 1 else 0 := by
  intro l
  induction l with
  | nil => intro y _ hy; simp at hy
  | cons a rest ih =>
    intro y hn hy
    rw [List.countP_cons]
    rcases List.mem_cons.mp hy with rfl | hyt
    · have hga : ∀ b ∈ rest, g b ≠ g y := by
        intro b hb he
        have hmem : g y ∈ rest.map g := he ▸ List.mem_map_of_mem g hb
        exact (List.nodup_cons.mp hn).1 hmem
      have htail : rest.countP (fun a => p a && decide (g a = g y)) = 0 := by
        rw [List.countP_eq_zero]
        intro b hb
        simp [hga b hb]
      rw [htail]
      by_cases hp : p y
      · simp [hp]
      · simp [hp]
    · have hga : g a ≠ g y := by
        intro he
        have hmem : g y ∈ rest.map g := List.mem_map_of_mem g hyt
        rw [← he] at hmem
        exact (List.nodup_cons.mp hn).1 hmem
      have hhead : (p a && decide (g a = g y)) = false := by simp [hga]
      rw [hhead]
      simp only [Bool.false_eq_true, if_false, Nat.add_zero]
      exact ih y (List.nodup_cons.mp hn).2 hyt

/-- C1 (amended): along every operation sequence from the initial manager
state (with fresh UUID draws), the completion-callback log is exactly the
eviction log restricted to the paths that fire the callback — the
`call.ended` branch of `processEvent`, `endCall` (hence also the max-duration
timer, which ends the call through `endCall`) — each with that call's final
record; so the callback fires exactly once per call ended along those paths,
and zero times for a call evicted by the non-retryable `call.error` branch or
by the REST-create failure path of `initiateCall`, even though the `error`
path also puts the record into a terminal state. -/
theorem completion_callback_exactly_once (cfg : Config) (ops : List Op)
    (h : freshRun cfg initialState ops = true) :
    ((run cfg initialState ops).completions =
        ((run cfg initialState ops).evicted.filter
          (fun ev => firesCallback ev.2)).map (fun ev => ev.1)) ∧
    (∀ ev ∈ (run cfg initialState ops).evicted, firesCallback ev.2 = true →
      ((run cfg initialState ops).completions.countP
          (fun c => decide (c.callId = ev.1.callId)) = 1 ∧
        (run cfg initialState ops).completions.count ev.1 = 1)) ∧
    (∀ ev ∈ (run cfg initialState ops).evicted, firesCallback ev.2 = false →
      (run cfg initialState ops).completions.countP
        (fun c => decide (c.callId = ev.1.callId)) = 0) := by
  have hInv := mgrInv_run ops initialState (mgrInv_initial cfg) h
  have hkey : ∀ ev ∈ (run cfg initialState ops).evicted,
      (run cfg initialState ops).completions.countP
          (fun c => decide (c.callId = ev.1.callId)) =
        if firesCallback ev.2 then 1 else 0 := by
    intro ev hm
    rw [hInv.completionsEq, List.countP_map, List.countP_filter]
    have hcong : ∀ a ∈ (run cfg initialState ops).evicted,
        (((fun c => decide (c.callId = ev.1.callId)) ∘ (fun x => x.1)) a &&
            firesCallback a.2) = true ↔
        ((fun x : CallRecord × EvictPath => firesCallback x.2) a &&
            decide ((fun x : CallRecord × EvictPath => x.1.callId) a =
              (fun x : CallRecord × EvictPath => x.1.callId) ev)) = true := by
      intro a _
      simp [Function.comp, Bool.and_comm]
    rw [List.countP_congr hcong]
    exact countP_unique (fun x : CallRecord × EvictPath => x.1.callId)
      (fun x => firesCallback x.2) (run cfg initialState ops).evicted ev
      hInv.evictedNodup hm
  refine ⟨hInv.completionsEq, ?_, ?_⟩
  · intro ev hm hfire
    have h1 := hkey ev hm
    rw [hfire] at h1
    simp only [if_true] at h1
    refine ⟨h1, ?_⟩
    have hmemc : ev.1 ∈ (run cfg initialState ops).completions := by
      rw [hInv.completionsEq]
      exact List.mem_map_of_mem _ (List.mem_filter.mpr ⟨hm, hfire⟩)
    have hge : 1 ≤ (run cfg initialState ops).completions.count ev.1 :=
      List.one_le_count_iff.mpr hmemc
    have hle : (run cfg initialState ops).completions.count ev.1 ≤
        (run cfg initialState ops).completions.countP
          (fun c => decide (c.callId = ev.1.callId)) := by
      rw [List.count_eq_countP]
      apply List.countP_mono_left
      intro c _ hbeq
      have hc : c = ev.1 := by simpa using hbeq
      simp [hc]
    omega
  · intro ev hm hfire
    have h1 := hkey ev hm
    rw [hfire] at h1
    simpa using h1

/-- Witness for C1 on a dial-answer-complete run. -/
theorem completion_callback_exactly_once_witness :
    (run cfgDemo initialState opsHappy).completions =
      ((run cfgDemo initialState opsHappy).evicted.filter
        (fun ev => firesCallback ev.2)).map (fun ev => ev.1) :=
  (completion_callback_exactly_once cfgDemo opsHappy (by decide)).1

/-- C1 counterexample: a call that reaches the terminal state `error` through
a non-retryable `call.error` event is evicted from the active set with
`endReason = "error"` and a terminal state, yet the completion callback is
never invoked — the `call.error` branch of `processEvent` has no
`onCallComplete` call — refuting "invoked exactly once ... never zero times"
for that terminal path. -/
theorem completion_callback_error_counterexample :
    (run cfgDemo initialState opsError).evicted.map
      (fun ev => TerminalStates ev.1.state) = [true] ∧
    (run cfgDemo initialState opsError).evicted.map
      (fun ev => ev.1.endReason) = [some "error"] ∧
    (run cfgDemo initialState opsError).completions = [] := by
  refine ⟨by decide, by decide, by decide⟩

/-- C4 (amended): the concurrency cap is maintained by the manager
operations — along every operation sequence from the initial state (with
fresh UUID draws) the active set holds only non-terminal records and never
more than `maxConcurrentCalls` of them, and `initiateCall` at the limit
returns the cap error and leaves the state (hence the record set) untouched.
`loadActiveCalls` itself enforces no cap, so a journal holding more than
`maxConcurrentCalls` young non-terminal records (possible when the configured
cap was lowered between runs) reloads to an active set exceeding the cap; see
the counterexample. -/
theorem concurrency_cap :
    (∀ (cfg : Config) (ops : List Op), freshRun cfg initialState ops = true →
      (nonTerminalActive (run cfg initialState ops)).length ≤ cfg.maxConcurrentCalls ∧
      nonTerminalActive (run cfg initialState ops) =
        (run cfg initialState ops).activeCalls) ∧
    (∀ (cfg : Config) (m : ManagerState) (p : InitiateParams),
      cfg.maxConcurrentCalls ≤ m.activeCalls.length → p.preflightOk = true →
      initiateCall cfg m p = (m, .failure "Maximum concurrent calls reached")) := by
  constructor
  · intro cfg ops h
    have hInv := mgrInv_run ops initialState (mgrInv_initial cfg) h
    have hall : nonTerminalActive (run cfg initialState ops) =
        (run cfg initialState ops).activeCalls := by
      unfold nonTerminalActive
      apply List.filter_eq_self.mpr
      intro kv hm
      rw [hInv.activeNonTerminal kv hm]
      rfl
    refine ⟨?_, hall⟩
    rw [hall]
    exact hInv.capLe
  · intro cfg m p hcap hpre
    unfold initiateCall
    rw [if_neg (by simp [hpre]), if_pos hcap]

/-- Witness for C4: the cap bound after a full happy-path run, and the cap
rejection on a manager already holding `maxConcurrentCalls = 1` active call. -/
theorem concurrency_cap_witness :
    (nonTerminalActive (run cfgDemo initialState opsHappy)).length ≤
        cfgDemo.maxConcurrentCalls ∧
    initiateCall cfgDemo timerDemoState pDemo =
      (timerDemoState, .failure "Maximum concurrent calls reached") :=
  ⟨(concurrency_cap.1 cfgDemo opsHappy (by decide)).1,
    concurrency_cap.2 cfgDemo timerDemoState pDemo (by decide) (by decide)⟩

/-- C4 counterexample: `loadActiveCalls` reloads every young non-terminal
journal record with no cap check, so with `maxConcurrentCalls = 1` a journal
holding two young non-terminal records yields two non-terminal active
records. -/
theorem concurrency_cap_load_counterexample :
    cfgDemo.maxConcurrentCalls = 1 ∧
    (nonTerminalActive (loadActiveCalls initialState [recA, recB] 1000)).length = 2 := by
  refine ⟨by decide, by decide⟩
